import Mathlib

/-!
Calendar events (`Project113/FileName.cpp`)

A shallow embedding of the C++ class `Calendar` and of the routine
`searchByCriteria`, followed by the properties proved about them.

Modelling conventions.

* A value of the C++ type `int` is an `Int`; `%` on `int` truncates towards
  zero and is modelled by `Int.tmod`.
* The arithmetic of `operator+=` and `operator-=` is given twice.
  `addStep32`, `addLoop32`, `subStep32`, `subLoop32`, `opAddAssign32` and
  `opSubAssign32` compute with the arithmetic of a 32-bit `int`: every `+=`,
  `-=`, `++` and `--` of the source is followed by `wrapInt32`, so that an
  overflow wraps around as in the compiled program.  `addStep`, `addLoop`,
  `subStep`, `subLoop`, `opAddAssign` and `opSubAssign` read the same
  statements over the integers; `opAddAssign32_eq` and `opSubAssign32_eq`
  show that the two agree whenever no operation leaves the range of `int`.
* `std::string` is modelled by `String`.
* A thrown `std::invalid_argument` is modelled by the error side of `Except`.
  A member function that changes `*this` and may throw afterwards returns the
  state of the object together with the outcome, so that the state left behind
  by a throwing call can be observed.
* `std::cout` is modelled by the text written to it.
-/

/-- The exceptions of the program: `std::invalid_argument` with its message. -/
inductive Exn where
  | invalid_argument (what : String)
  deriving DecidableEq, Repr

deriving instance DecidableEq for Except

/-- The data members of `class Calendar`. -/
structure Calendar where
  day : Int
  month : Int
  year : Int
  event : String
  deriving DecidableEq, Repr

namespace Calendar

/-- `bool isLeapYear() const`. -/
def isLeapYear (c : Calendar) : Bool :=
  (c.year.tmod 4 == 0 && c.year.tmod 100 != 0) || (c.year.tmod 400 == 0)

/-- `int daysInMonth() const`. -/
def daysInMonth (c : Calendar) : Int :=
  if c.month = 4 ∨ c.month = 6 ∨ c.month = 9 ∨ c.month = 11 then 30
  else if c.month = 2 then (if c.isLeapYear then 29 else 28)
  else 31

/-- `void validateDate()`: the three checks in source order. -/
def validateDate (c : Calendar) : Except Exn Unit :=
  if c.month < 1 ∨ c.month > 12 then
    .error (.invalid_argument "Invalid month.")
  else if c.day < 1 ∨ c.day > c.daysInMonth then
    .error (.invalid_argument "Invalid day.")
  else if c.year < 0 then
    .error (.invalid_argument "Invalid year.")
  else
    .ok ()

/-- The constructor `Calendar(int d, int m, int y, std::string e)`: the members
are initialised and `validateDate` runs; when it throws no object exists. -/
def construct (d m y : Int) (e : String) : Except Exn Calendar :=
  let c : Calendar := { day := d, month := m, year := y, event := e }
  match c.validateDate with
  | .error x => .error x
  | .ok () => .ok c

/-- The constructor with its default arguments `d = 1, m = 1, y = 2000,
e = "No event"`. -/
def constructDefault : Except Exn Calendar :=
  construct 1 1 2000 "No event"

/-- One pass through the body of the `while` loop of `operator+=`, read over
the integers (see `addStep32` for the arithmetic of `int`). -/
def addStep (c : Calendar) : Calendar :=
  let c1 := { c with day := c.day - c.daysInMonth }
  let c2 := { c1 with month := c1.month + 1 }
  if c2.month > 12 then { c2 with month := 1, year := c2.year + 1 } else c2

/-- The loop `while (day > daysInMonth()) { ... }` of `operator+=`, read over
the integers. -/
def addLoop (c : Calendar) : Calendar :=
  if c.day > c.daysInMonth then addLoop c.addStep else c
termination_by c.day.toNat
decreasing_by
  have h28 : 28 ≤ c.daysInMonth := by
    unfold daysInMonth
    split_ifs <;> omega
  have hd : (addStep c).day = c.day - c.daysInMonth := by
    unfold addStep
    dsimp only
    split_ifs <;> rfl
  rw [hd]
  omega

/-- One pass through the body of the `while` loop of `operator-=`, read over
the integers (see `subStep32` for the arithmetic of `int`). -/
def subStep (c : Calendar) : Calendar :=
  let c1 := { c with month := c.month - 1 }
  let c2 := if c1.month < 1 then { c1 with month := 12, year := c1.year - 1 } else c1
  { c2 with day := c2.day + c2.daysInMonth }

/-- The loop `while (day < 1) { ... }` of `operator-=`, read over the
integers. -/
def subLoop (c : Calendar) : Calendar :=
  if c.day < 1 then subLoop c.subStep else c
termination_by (1 - c.day).toNat
decreasing_by
  have h28 : ∀ x : Calendar, 28 ≤ x.daysInMonth := by
    intro x
    unfold daysInMonth
    split_ifs <;> omega
  have hd : ∃ k : Int, 28 ≤ k ∧ (subStep c).day = c.day + k := by
    unfold subStep
    dsimp only
    split_ifs
    · exact ⟨_, h28 _, rfl⟩
    · exact ⟨_, h28 _, rfl⟩
  obtain ⟨k, hk, he⟩ := hd
  rw [he]
  omega

/-- `Calendar& operator+=(int days)`, read over the integers: the object
after the call and whether the final `validateDate` threw.  It is the
operator of the program whenever no operation overflows
(`opAddAssign32_eq`). -/
def opAddAssign (c : Calendar) (days : Int) : Calendar × Except Exn Unit :=
  let c1 := addLoop { c with day := c.day + days }
  (c1, c1.validateDate)

/-- `Calendar& operator-=(int days)`, read over the integers: the object
after the call and whether the final `validateDate` threw.  It is the
operator of the program whenever no operation overflows
(`opSubAssign32_eq`), as for every valid event and `0 ≤ days ≤ 2147483647`. -/
def opSubAssign (c : Calendar) (days : Int) : Calendar × Except Exn Unit :=
  let c1 := subLoop { c with day := c.day - days }
  (c1, c1.validateDate)

/-- The value that a 32-bit `int` holds after an arithmetic operation whose
mathematical result is `x`: `x` itself when it lies within
-2147483648..2147483647, and otherwise `x` reduced modulo 2^32 into that
range, which is what the compiled program computes. -/
def wrapInt32 (x : Int) : Int :=
  (x + 2147483648) % 4294967296 - 2147483648

/-- One pass through the body of the `while` loop of `operator+=`, with the
arithmetic of a 32-bit `int`: `day -= daysInMonth(); month++;
if (month > 12) { month = 1; year++; }`. -/
def addStep32 (c : Calendar) : Calendar :=
  let c1 := { c with day := wrapInt32 (c.day - c.daysInMonth) }
  let c2 := { c1 with month := wrapInt32 (c1.month + 1) }
  if c2.month > 12 then { c2 with month := 1, year := wrapInt32 (c2.year + 1) } else c2

/-- The loop `while (day > daysInMonth()) { ... }` of `operator+=`, with the
arithmetic of a 32-bit `int`. -/
def addLoop32 (c : Calendar) : Calendar :=
  if c.day > c.daysInMonth then addLoop32 c.addStep32 else c
termination_by c.day.toNat
decreasing_by
  have h28 : 28 ≤ c.daysInMonth := by
    unfold daysInMonth
    split_ifs <;> omega
  have hd : (addStep32 c).day = wrapInt32 (c.day - c.daysInMonth) := by
    unfold addStep32
    dsimp only
    split_ifs <;> rfl
  rw [hd]
  unfold wrapInt32
  omega

/-- One pass through the body of the `while` loop of `operator-=`, with the
arithmetic of a 32-bit `int`: `month--; if (month < 1) { month = 12; year--; }
day += daysInMonth();`. -/
def subStep32 (c : Calendar) : Calendar :=
  let c1 := { c with month := wrapInt32 (c.month - 1) }
  let c2 := if c1.month < 1 then { c1 with month := 12, year := wrapInt32 (c1.year - 1) } else c1
  { c2 with day := wrapInt32 (c2.day + c2.daysInMonth) }

/-- The loop `while (day < 1) { ... }` of `operator-=`, with the arithmetic of
a 32-bit `int`. -/
def subLoop32 (c : Calendar) : Calendar :=
  if c.day < 1 then subLoop32 c.subStep32 else c
termination_by (1 - c.day).toNat
decreasing_by
  have h28 : ∀ x : Calendar, 28 ≤ x.daysInMonth ∧ x.daysInMonth ≤ 31 := by
    intro x
    unfold daysInMonth
    split_ifs <;> omega
  have hd : ∃ k : Int, 28 ≤ k ∧ k ≤ 31 ∧ (subStep32 c).day = wrapInt32 (c.day + k) := by
    unfold subStep32
    dsimp only
    split_ifs
    · exact ⟨_, (h28 _).1, (h28 _).2, rfl⟩
    · exact ⟨_, (h28 _).1, (h28 _).2, rfl⟩
  obtain ⟨k, hk, hk2, he⟩ := hd
  rw [he]
  unfold wrapInt32
  omega

/-- `Calendar& operator+=(int days)` with the arithmetic of a 32-bit `int`:
`day += days`, the loop, and the final `validateDate`; the object after the
call and whether the validation threw. -/
def opAddAssign32 (c : Calendar) (days : Int) : Calendar × Except Exn Unit :=
  let c1 := addLoop32 { c with day := wrapInt32 (c.day + days) }
  (c1, c1.validateDate)

/-- `Calendar& operator-=(int days)` with the arithmetic of a 32-bit `int`:
`day -= days`, the loop, and the final `validateDate`; the object after the
call and whether the validation threw. -/
def opSubAssign32 (c : Calendar) (days : Int) : Calendar × Except Exn Unit :=
  let c1 := subLoop32 { c with day := wrapInt32 (c.day - days) }
  (c1, c1.validateDate)

/-- `Calendar& operator=(const Calendar& other)`.  The flag `sameObject` is
the outcome of the address test `this != &other` (true when both names denote
one object, in which case nothing happens). -/
def opAssign (self other : Calendar) (sameObject : Bool) : Calendar × Except Exn Unit :=
  if sameObject then (self, .ok ())
  else
    let c : Calendar :=
      { day := other.day, month := other.month, year := other.year, event := other.event }
    (c, c.validateDate)

/-- `bool operator==(const Calendar& other) const`. -/
def opEq (a b : Calendar) : Bool :=
  a.day == b.day && a.month == b.month && a.year == b.year && a.event == b.event

/-- `bool operator!=(const Calendar& other) const`. -/
def opNe (a b : Calendar) : Bool :=
  !(opEq a b)

/-- `bool operator>(const Calendar& other) const`. -/
def opGt (a b : Calendar) : Bool :=
  if a.year ≠ b.year then decide (a.year > b.year)
  else if a.month ≠ b.month then decide (a.month > b.month)
  else decide (a.day > b.day)

/-- `bool operator>=(const Calendar& other) const`. -/
def opGe (a b : Calendar) : Bool :=
  opGt a b || opEq a b

/-- `bool operator<(const Calendar& other) const`. -/
def opLt (a b : Calendar) : Bool :=
  !(opGe a b)

/-- `bool operator<=(const Calendar& other) const`. -/
def opLe (a b : Calendar) : Bool :=
  !(opGt a b)

/-- The search of `std::string::find`, on the characters that remain from
position `pos` on: the least position at which `key` starts, `none` for
`std::string::npos`. -/
def findFrom (key : List Char) (s : List Char) (pos : Nat) : Option Nat :=
  if key.isPrefixOf s then some pos
  else
    match s with
    | [] => none
    | _ :: t => findFrom key t (pos + 1)

/-- `s.find(key)` of `std::string`, searching from position 0. -/
def stringFind (s key : String) : Option Nat :=
  findFrom key.data s.data 0

/-- `bool findEvent(const std::string& keyword) const`. -/
def findEvent (c : Calendar) (keyword : String) : Bool :=
  stringFind c.event keyword != none

/-- `bool findEventByDate(int d, int m, int y) const`. -/
def findEventByDate (c : Calendar) (d m y : Int) : Bool :=
  c.day == d && c.month == m && c.year == y

/-- `bool findEventByDay(int d) const`. -/
def findEventByDay (c : Calendar) (d : Int) : Bool :=
  c.day == d

/-- `bool findEventByMonth(int m) const`. -/
def findEventByMonth (c : Calendar) (m : Int) : Bool :=
  c.month == m

/-- `bool findEventByYear(int y) const`. -/
def findEventByYear (c : Calendar) (y : Int) : Bool :=
  c.year == y

/-- `std::string getEventDate() const`; `std::to_string` of an `int` is its
decimal numeral, with a minus sign when negative. -/
def getEventDate (c : Calendar) : String :=
  toString c.day ++ "/" ++ toString c.month ++ "/" ++ toString c.year

/-- `std::string getEvent() const`. -/
def getEvent (c : Calendar) : String :=
  c.event

/-- `void setEvent(const std::string& e)`. -/
def setEvent (c : Calendar) (e : String) : Calendar :=
  { c with event := e }

/-- `void printDate() const`: the text written to `std::cout`. -/
def printDate (c : Calendar) : String :=
  toString c.day ++ "/" ++ toString c.month ++ "/" ++ toString c.year ++ " - " ++ c.event ++ "\n"

end Calendar

/-- The values delivered by the reads of `std::cin` in `searchByCriteria`:
the menu choice, the line read by `std::getline` in case 1, and the integers
read in cases 2 to 5.  Each case uses only the fields it reads. -/
structure SearchInput where
  choice : Int
  keyword : String
  day : Int
  month : Int
  year : Int
  deriving DecidableEq, Repr

/-- The menu written first by `searchByCriteria`. -/
def menuText : String :=
  "Choose search criteria:\n1. By event name\n2. By day\n3. By month\n4. By year\n5. By full date\n"

/-- The line written for a matching event:
`"Event found: " << event.getEventDate() << " - " << event.getEvent() << std::endl`. -/
def foundLine (e : Calendar) : String :=
  "Event found: " ++ e.getEventDate ++ " - " ++ e.getEvent ++ "\n"

/-- The range-`for` loop shared by the five cases of `searchByCriteria`, with
the test `p` of the case: the state is the text written so far and the local
flag `found`. -/
def scanEvents (p : Calendar → Bool) : List Calendar → String × Bool → String × Bool
  | [], st => st
  | e :: es, (out, found) =>
    if p e then scanEvents p es (out ++ foundLine e, true)
    else scanEvents p es (out, found)

/-- The tail of each case: the loop started with `found = false`, then the
message of the case when `found` is still false. -/
def runCase (p : Calendar → Bool) (events : List Calendar) (out : String) (noneMsg : String) :
    String :=
  let st := scanEvents p events (out, false)
  if !st.2 then st.1 ++ noneMsg else st.1

/-- `void searchByCriteria(const std::vector<Calendar>& events)`: the text
written to `std::cout`. -/
def searchByCriteria (events : List Calendar) (inp : SearchInput) : String :=
  let out := menuText
  if inp.choice = 1 then
    runCase (fun e => e.findEvent inp.keyword) events (out ++ "Enter event name: ")
      "Event not found.\n"
  else if inp.choice = 2 then
    runCase (fun e => e.findEventByDay inp.day) events (out ++ "Enter day: ")
      "No events on this day.\n"
  else if inp.choice = 3 then
    runCase (fun e => e.findEventByMonth inp.month) events (out ++ "Enter month: ")
      "No events in this month.\n"
  else if inp.choice = 4 then
    runCase (fun e => e.findEventByYear inp.year) events (out ++ "Enter year: ")
      "No events in this year.\n"
  else if inp.choice = 5 then
    runCase (fun e => e.findEventByDate inp.day inp.month inp.year) events
      (out ++ "Enter day: " ++ "Enter month: " ++ "Enter year: ")
      "No events on this date.\n"
  else
    out ++ "Invalid choice.\n"

/-- The initialiser list of `events` in `main`: four constructor calls, in
order; a throwing one ends the program. -/
def seedEvents : Except Exn (List Calendar) :=
  match Calendar.construct 5 1 2024 "Birthday" with
  | .error x => .error x
  | .ok e1 =>
    match Calendar.construct 25 12 2024 "Christmas" with
    | .error x => .error x
    | .ok e2 =>
      match Calendar.construct 1 1 2024 "New Year" with
      | .error x => .error x
      | .ok e3 =>
        match Calendar.construct 8 3 2024 "International Women's Day" with
        | .error x => .error x
        | .ok e4 => .ok [e1, e2, e3, e4]

/-- `int main()`: the text written and the exit code, or the escaping
exception. -/
def Program.main (inp : SearchInput) : Except Exn (String × Int) :=
  match seedEvents with
  | .error x => .error x
  | .ok events => .ok (searchByCriteria events inp, 0)

/-- The catalog that `main` builds, as plain field values. -/
def seedCatalog : List Calendar :=
  [⟨5, 1, 2024, "Birthday"⟩, ⟨25, 12, 2024, "Christmas"⟩, ⟨1, 1, 2024, "New Year"⟩,
   ⟨8, 3, 2024, "International Women's Day"⟩]

/-- The lines of a report, written one after the other. -/
def concatLines : List String → String
  | [] => ""
  | l :: ls => l ++ concatLines ls

/-- The report that the specification asks of a search with test `p`: one
line for each event of the catalog that passes the test, in catalog order,
then the message of the criterion exactly when no event passes. -/
def matchReport (p : Calendar → Bool) (events : List Calendar) (noneMsg : String) : String :=
  concatLines ((events.filter p).map foundLine) ++
    (if (events.filter p).isEmpty then noneMsg else "")

/-- The lexicographic order on (year, month, day) of the specification. -/
def Calendar.DateAfter (a b : Calendar) : Prop :=
  a.year > b.year ∨ (a.year = b.year ∧ (a.month > b.month ∨ (a.month = b.month ∧ a.day > b.day)))

/-- Two events on the same date, the labels left aside. -/
def Calendar.SameDate (a b : Calendar) : Prop :=
  a.year = b.year ∧ a.month = b.month ∧ a.day = b.day

/-- The length of month `m` of year `y`, as `daysInMonth` gives it. -/
def monthDays (m y : Int) : Int :=
  Calendar.daysInMonth ⟨1, m, y, ""⟩

/-- The days of year `y` before its month `m`: the lengths of the months
1 to `m - 1`. -/
def daysBeforeMonth (m y : Int) : Int :=
  ((List.range (m - 1).toNat).map (fun (i : Nat) => monthDays ((i : Int) + 1) y)).sum

/-- The length of year `y`: the lengths of its twelve months. -/
def yearDays (y : Int) : Int :=
  ((List.range 12).map (fun (i : Nat) => monthDays ((i : Int) + 1) y)).sum

/-- The days from 1 January of year 0 to 1 January of year `y`: the lengths
of the years 0 to `y - 1`. -/
def daysBeforeYear (y : Int) : Int :=
  ((List.range y.toNat).map (fun (k : Nat) => yearDays (k : Int))).sum

/-- The absolute day number of the specification: the days elapsed from
1 January of year 0 to the date, counted with the month lengths of
`daysInMonth`. -/
def Calendar.dayNumber (c : Calendar) : Int :=
  daysBeforeYear c.year + daysBeforeMonth c.month c.year + (c.day - 1)

/-- The class invariant of the specification: a calendar-valid date. -/
def Calendar.Valid (c : Calendar) : Prop :=
  1 ≤ c.month ∧ c.month ≤ 12 ∧ 1 ≤ c.day ∧ c.day ≤ c.daysInMonth ∧ 0 ≤ c.year

instance (c : Calendar) : Decidable c.Valid := by
  unfold Calendar.Valid
  infer_instance

namespace Calendar

/-- The month lengths are at least 28, whatever the month and year fields hold. -/
theorem daysInMonth_ge (c : Calendar) : 28 ≤ c.daysInMonth := by
  unfold daysInMonth
  split_ifs <;> omega

theorem daysInMonth_le (c : Calendar) : c.daysInMonth ≤ 31 := by
  unfold daysInMonth
  split_ifs <;> omega

/-- The month length reads only the fields `month` and `year`. -/
theorem daysInMonth_congr {a b : Calendar} (hm : a.month = b.month) (hy : a.year = b.year) :
    a.daysInMonth = b.daysInMonth := by
  unfold daysInMonth isLeapYear
  rw [hm, hy]

@[simp] theorem addStep_day (c : Calendar) : c.addStep.day = c.day - c.daysInMonth := by
  unfold addStep
  dsimp only
  split_ifs <;> rfl

@[simp] theorem addStep_event (c : Calendar) : c.addStep.event = c.event := by
  unfold addStep
  dsimp only
  split_ifs <;> rfl

theorem addStep_month (c : Calendar) :
    c.addStep.month = if c.month + 1 > 12 then 1 else c.month + 1 := by
  unfold addStep
  dsimp only
  split_ifs <;> rfl

theorem addStep_year (c : Calendar) :
    c.addStep.year = if c.month + 1 > 12 then c.year + 1 else c.year := by
  unfold addStep
  dsimp only
  split_ifs <;> rfl

@[simp] theorem subStep_event (c : Calendar) : c.subStep.event = c.event := by
  unfold subStep
  dsimp only
  split_ifs <;> rfl

theorem subStep_month (c : Calendar) :
    c.subStep.month = if c.month - 1 < 1 then 12 else c.month - 1 := by
  unfold subStep
  dsimp only
  split_ifs <;> rfl

theorem subStep_year (c : Calendar) :
    c.subStep.year = if c.month - 1 < 1 then c.year - 1 else c.year := by
  unfold subStep
  dsimp only
  split_ifs <;> rfl

theorem subStep_day (c : Calendar) :
    c.subStep.day = c.day + c.subStep.daysInMonth := by
  unfold subStep
  dsimp only
  split_ifs
  · congr 1
  · congr 1

/-- The body of the subtraction loop undoes the body of the addition loop on
the month and year, and gives back the month length that was taken off. -/
theorem subStep_addStep (c : Calendar) (x : Int) (h1 : 1 ≤ c.month) (h12 : c.month ≤ 12) :
    subStep { c.addStep with day := x } = { c with day := x + c.daysInMonth } := by
  have hm : (subStep { c.addStep with day := x }).month = c.month := by
    rw [subStep_month]
    dsimp only
    rw [addStep_month]
    split_ifs <;> omega
  have hy : (subStep { c.addStep with day := x }).year = c.year := by
    rw [subStep_year]
    dsimp only
    rw [addStep_month, addStep_year]
    split_ifs <;> omega
  have hd : (subStep { c.addStep with day := x }).day = x + c.daysInMonth := by
    rw [subStep_day]
    dsimp only
    rw [daysInMonth_congr hm hy]
  have he : (subStep { c.addStep with day := x }).event = c.event := by
    rw [subStep_event]
    dsimp only
    rw [addStep_event]
  cases hs : subStep { c.addStep with day := x } with
  | mk d m y e =>
    rw [hs] at hm hy hd he
    dsimp only at hm hy hd he
    subst hm hy hd he
    rfl

theorem addLoop_of_gt (c : Calendar) (h : c.day > c.daysInMonth) :
    addLoop c = addLoop c.addStep := by
  rw [addLoop, if_pos h]

theorem addLoop_of_le (c : Calendar) (h : ¬ c.day > c.daysInMonth) :
    addLoop c = c := by
  rw [addLoop, if_neg h]

theorem subLoop_of_lt (c : Calendar) (h : c.day < 1) :
    subLoop c = subLoop c.subStep := by
  rw [subLoop, if_pos h]

theorem subLoop_of_ge (c : Calendar) (h : ¬ c.day < 1) :
    subLoop c = c := by
  rw [subLoop, if_neg h]

/-- The addition loop stops with the day inside the month it has reached. -/
theorem addLoop_day_le (c : Calendar) : (addLoop c).day ≤ (addLoop c).daysInMonth := by
  induction c using addLoop.induct with
  | case1 c h ih => rw [addLoop_of_gt c h]; exact ih
  | case2 c h => rw [addLoop_of_le c h]; omega

/-- The addition loop keeps a day that is at least 1 at least 1. -/
theorem addLoop_day_ge (c : Calendar) (h1 : 1 ≤ c.day) : 1 ≤ (addLoop c).day := by
  induction c using addLoop.induct with
  | case1 c h ih =>
    rw [addLoop_of_gt c h]
    apply ih
    rw [addStep_day]
    omega
  | case2 c h => rw [addLoop_of_le c h]; exact h1

/-- The addition loop keeps the month within 1..12. -/
theorem addLoop_month (c : Calendar) (h1 : 1 ≤ c.month) (h12 : c.month ≤ 12) :
    1 ≤ (addLoop c).month ∧ (addLoop c).month ≤ 12 := by
  induction c using addLoop.induct with
  | case1 c h ih =>
    rw [addLoop_of_gt c h]
    apply ih
    · rw [addStep_month]; split_ifs <;> omega
    · rw [addStep_month]; split_ifs <;> omega
  | case2 c h => rw [addLoop_of_le c h]; exact ⟨h1, h12⟩

/-- The addition loop never lowers the year. -/
theorem addLoop_year (c : Calendar) : c.year ≤ (addLoop c).year := by
  induction c using addLoop.induct with
  | case1 c h ih =>
    rw [addLoop_of_gt c h]
    have : c.year ≤ c.addStep.year := by
      rw [addStep_year]; split_ifs <;> omega
    omega
  | case2 c h => rw [addLoop_of_le c h]

/-- The addition loop leaves the label alone. -/
theorem addLoop_event (c : Calendar) : (addLoop c).event = c.event := by
  induction c using addLoop.induct with
  | case1 c h ih => rw [addLoop_of_gt c h, ih, addStep_event]
  | case2 c h => rw [addLoop_of_le c h]

/-- The subtraction loop leaves the label alone. -/
theorem subLoop_event (c : Calendar) : (subLoop c).event = c.event := by
  induction c using subLoop.induct with
  | case1 c h ih => rw [subLoop_of_lt c h, ih, subStep_event]
  | case2 c h => rw [subLoop_of_ge c h]

/-- The subtraction loop, started on the result of the addition loop with the
same amount taken off the day, arrives where it arrives from the start of the
addition loop. -/
theorem subLoop_addLoop (c : Calendar) (n : Int) (h1 : 1 ≤ c.month) (h12 : c.month ≤ 12)
    (hd : c.day - n ≤ c.daysInMonth) :
    subLoop { addLoop c with day := (addLoop c).day - n } = subLoop { c with day := c.day - n } := by
  induction c using addLoop.induct with
  | case1 c h ih =>
    have h28 := daysInMonth_ge c.addStep
    have hm : 1 ≤ c.addStep.month ∧ c.addStep.month ≤ 12 := by
      rw [addStep_month]; split_ifs <;> omega
    rw [addLoop_of_gt c h, ih hm.1 hm.2 (by rw [addStep_day]; omega)]
    rw [subLoop_of_lt _ (by dsimp only; rw [addStep_day]; omega)]
    rw [subStep_addStep c _ h1 h12, addStep_day]
    congr 2
    omega
  | case2 c h => rw [addLoop_of_le c h]

theorem validateDate_ok_iff (c : Calendar) : c.validateDate = .ok () ↔ c.Valid := by
  unfold validateDate Valid
  split_ifs <;> simp <;> omega

theorem validateDate_error (c : Calendar) (h : ¬ c.Valid) :
    ∃ msg, c.validateDate = .error (.invalid_argument msg) := by
  unfold validateDate
  unfold Valid at h
  split_ifs
  · exact ⟨_, rfl⟩
  · exact ⟨_, rfl⟩
  · exact ⟨_, rfl⟩
  · omega

end Calendar

/-! ## Construction and validation -/

/-- C1: for all integers `d`, `m`, `y` and every label, the constructor
succeeds exactly when `1 ≤ m ≤ 12`, `1 ≤ d ≤ daysInMonth(m, y)` and `y ≥ 0`;
then the object holds exactly the given day, month, year and label; otherwise
it throws `std::invalid_argument`. -/
theorem construct_succeeds_iff (d m y : Int) (e : String) :
    ((∃ c, Calendar.construct d m y e = .ok c) ↔
        (1 ≤ m ∧ m ≤ 12 ∧ 1 ≤ d ∧ d ≤ Calendar.daysInMonth ⟨d, m, y, e⟩ ∧ 0 ≤ y)) ∧
    ((1 ≤ m ∧ m ≤ 12 ∧ 1 ≤ d ∧ d ≤ Calendar.daysInMonth ⟨d, m, y, e⟩ ∧ 0 ≤ y) ↔
        Calendar.construct d m y e = .ok ⟨d, m, y, e⟩) ∧
    (¬ (1 ≤ m ∧ m ≤ 12 ∧ 1 ≤ d ∧ d ≤ Calendar.daysInMonth ⟨d, m, y, e⟩ ∧ 0 ≤ y) ↔
        ∃ msg, Calendar.construct d m y e = .error (.invalid_argument msg)) := by
  have hv : (1 ≤ m ∧ m ≤ 12 ∧ 1 ≤ d ∧ d ≤ Calendar.daysInMonth ⟨d, m, y, e⟩ ∧ 0 ≤ y) ↔
      Calendar.Valid ⟨d, m, y, e⟩ := Iff.rfl
  rw [hv]
  by_cases h : Calendar.Valid ⟨d, m, y, e⟩
  · have hok := (Calendar.validateDate_ok_iff ⟨d, m, y, e⟩).2 h
    have hc : Calendar.construct d m y e = .ok ⟨d, m, y, e⟩ := by
      unfold Calendar.construct
      simp only [hok]
    rw [hc]
    simp [h]
  · obtain ⟨msg, hmsg⟩ := Calendar.validateDate_error ⟨d, m, y, e⟩ h
    have hc : Calendar.construct d m y e = .error (.invalid_argument msg) := by
      unfold Calendar.construct
      simp only [hmsg]
    rw [hc]
    simp [h]

/-! ## The round trip over the integers -/

/-- Over the integers: for every valid event and every `n ≥ 0`, adding `n`
days returns normally, and subtracting `n` days from the result returns
normally and gives back the event. -/
theorem opAddAssign_opSubAssign (c : Calendar) (n : Int) (hv : c.Valid) (hn : 0 ≤ n) :
    (c.opAddAssign n).2 = .ok () ∧
    (c.opAddAssign n).1.opSubAssign n = (c, .ok ()) ∧
    Calendar.opEq ((c.opAddAssign n).1.opSubAssign n).1 c = true := by
  obtain ⟨hm1, hm12, hd1, hdle, hy⟩ := hv
  have hvalid : c.Valid := ⟨hm1, hm12, hd1, hdle, hy⟩
  have hstart : ({ c with day := c.day + n } : Calendar).daysInMonth = c.daysInMonth :=
    Calendar.daysInMonth_congr rfl rfl
  have hback : Calendar.subLoop
      { Calendar.addLoop { c with day := c.day + n } with
        day := (Calendar.addLoop { c with day := c.day + n }).day - n } = c := by
    have key := Calendar.subLoop_addLoop { c with day := c.day + n } n hm1 hm12
      (by rw [hstart]; dsimp only; omega)
    dsimp only at key ⊢
    rw [key, Calendar.subLoop_of_ge _ (by dsimp only; omega)]
    cases c
    dsimp only
    congr 1
    omega
  have hsub : (c.opAddAssign n).1.opSubAssign n = (c, .ok ()) := by
    unfold Calendar.opAddAssign Calendar.opSubAssign
    dsimp only
    rw [hback, (Calendar.validateDate_ok_iff c).2 hvalid]
  refine ⟨?_, hsub, ?_⟩
  · unfold Calendar.opAddAssign
    dsimp only
    rw [Calendar.validateDate_ok_iff]
    have hm := Calendar.addLoop_month { c with day := c.day + n } hm1 hm12
    have hy2 := Calendar.addLoop_year { c with day := c.day + n }
    have hge := Calendar.addLoop_day_ge { c with day := c.day + n } (by dsimp only; omega)
    have hle := Calendar.addLoop_day_le { c with day := c.day + n }
    dsimp only at hy2
    exact ⟨hm.1, hm.2, hge, hle, by omega⟩
  · rw [hsub]
    simp [Calendar.opEq]

/-! ## Comparison operators -/

/-- C3: on `Calendar(1,1,2024,"X")` and `Calendar(1,1,2024,"Y")` the operator
`==` is false and `>` is false in both directions, while `<` is true in both
directions: `operator<` negates `operator>=`, which falls back on the
label-sensitive `operator==`. -/
theorem same_date_other_label_eval :
    Calendar.construct 1 1 2024 "X" = .ok ⟨1, 1, 2024, "X"⟩ ∧
    Calendar.construct 1 1 2024 "Y" = .ok ⟨1, 1, 2024, "Y"⟩ ∧
    Calendar.opEq ⟨1, 1, 2024, "X"⟩ ⟨1, 1, 2024, "Y"⟩ = false ∧
    Calendar.opGt ⟨1, 1, 2024, "X"⟩ ⟨1, 1, 2024, "Y"⟩ = false ∧
    Calendar.opGt ⟨1, 1, 2024, "Y"⟩ ⟨1, 1, 2024, "X"⟩ = false ∧
    Calendar.opLe ⟨1, 1, 2024, "X"⟩ ⟨1, 1, 2024, "Y"⟩ = true ∧
    Calendar.opLe ⟨1, 1, 2024, "Y"⟩ ⟨1, 1, 2024, "X"⟩ = true ∧
    Calendar.opLt ⟨1, 1, 2024, "X"⟩ ⟨1, 1, 2024, "Y"⟩ = true ∧
    Calendar.opLt ⟨1, 1, 2024, "Y"⟩ ⟨1, 1, 2024, "X"⟩ = true := by
  decide

/-! ## The class invariant -/

/-- C4: date validity is an invariant of the public operations.  An object
that the constructor returns is valid; `operator=`, `operator+=` and
`operator-=` leave a valid object whenever they return without throwing (for
the self-assignment, which does nothing, when the object was valid before);
`setEvent` keeps a valid object valid. -/
theorem valid_invariant :
    (∀ d m y e c, Calendar.construct d m y e = .ok c → c.Valid) ∧
    (∀ self other : Calendar, ∀ sameObject : Bool, self.Valid →
        (Calendar.opAssign self other sameObject).2 = .ok () →
        (Calendar.opAssign self other sameObject).1.Valid) ∧
    (∀ (c : Calendar) (n : Int), (c.opAddAssign n).2 = .ok () → (c.opAddAssign n).1.Valid) ∧
    (∀ (c : Calendar) (n : Int), (c.opSubAssign n).2 = .ok () → (c.opSubAssign n).1.Valid) ∧
    (∀ (c : Calendar) (e : String), c.Valid → (c.setEvent e).Valid) := by
  refine ⟨?_, ?_, ?_, ?_, ?_⟩
  · intro d m y e c h
    unfold Calendar.construct at h
    dsimp only at h
    split at h
    · cases h
    · next hok =>
      cases h
      exact (Calendar.validateDate_ok_iff _).1 hok
  · intro self other sameObject hv h
    unfold Calendar.opAssign at h ⊢
    cases sameObject
    · simp only [Bool.false_eq_true, if_false] at h ⊢
      exact (Calendar.validateDate_ok_iff _).1 h
    · simp only [if_true]
      exact hv
  · intro c n h
    exact (Calendar.validateDate_ok_iff _).1 h
  · intro c n h
    exact (Calendar.validateDate_ok_iff _).1 h
  · intro c e hv
    exact hv

/-! ## Search -/

/-- The loop of a case adds to the text the lines of the events that pass the
test, in order, and raises `found` exactly when there is one. -/
theorem scanEvents_eq (p : Calendar → Bool) (events : List Calendar) (out : String)
    (found : Bool) :
    scanEvents p events (out, found) =
      (out ++ concatLines ((events.filter p).map foundLine),
        found || !(events.filter p).isEmpty) := by
  induction events generalizing out found with
  | nil => simp [scanEvents, concatLines]
  | cons e es ih =>
    by_cases h : p e = true
    · simp [scanEvents, h, ih, concatLines, String.append_assoc]
    · simp [scanEvents, h, ih]

theorem runCase_eq (p : Calendar → Bool) (events : List Calendar) (out noneMsg : String) :
    runCase p events out noneMsg = out ++ matchReport p events noneMsg := by
  unfold runCase matchReport
  rw [scanEvents_eq]
  cases h : (events.filter p).isEmpty <;> simp [h, String.append_assoc]

/-- C6: for each of the five criteria and every catalog, the text written
after the prompts is the report of the filter of the catalog by the test of
the criterion: one line per matching event, in catalog order, and then the
message of the criterion exactly when no event matches.  On the seed catalog,
month 1 reports Birthday then New Year, and year 2025 reports
"No events in this year.". -/
theorem search_reports_filter (events : List Calendar) (inp : SearchInput) :
    searchByCriteria events { inp with choice := 1 } =
      menuText ++ "Enter event name: " ++
        matchReport (fun e => e.findEvent inp.keyword) events "Event not found.\n" ∧
    searchByCriteria events { inp with choice := 2 } =
      menuText ++ "Enter day: " ++
        matchReport (fun e => e.findEventByDay inp.day) events "No events on this day.\n" ∧
    searchByCriteria events { inp with choice := 3 } =
      menuText ++ "Enter month: " ++
        matchReport (fun e => e.findEventByMonth inp.month) events "No events in this month.\n" ∧
    searchByCriteria events { inp with choice := 4 } =
      menuText ++ "Enter year: " ++
        matchReport (fun e => e.findEventByYear inp.year) events "No events in this year.\n" ∧
    searchByCriteria events { inp with choice := 5 } =
      menuText ++ "Enter day: " ++ "Enter month: " ++ "Enter year: " ++
        matchReport (fun e => e.findEventByDate inp.day inp.month inp.year) events
          "No events on this date.\n" ∧
    seedEvents = .ok seedCatalog ∧
    seedCatalog.filter (fun e => e.findEventByMonth 1) =
      [⟨5, 1, 2024, "Birthday"⟩, ⟨1, 1, 2024, "New Year"⟩] ∧
    searchByCriteria seedCatalog { inp with choice := 3, month := 1 } =
      menuText ++ "Enter month: " ++
        "Event found: 5/1/2024 - Birthday\nEvent found: 1/1/2024 - New Year\n" ∧
    searchByCriteria seedCatalog { inp with choice := 4, year := 2025 } =
      menuText ++ "Enter year: " ++ "No events in this year.\n" := by
  refine ⟨?_, ?_, ?_, ?_, ?_, by decide, by decide, ?_, ?_⟩
  · simp [searchByCriteria, runCase_eq]
  · simp [searchByCriteria, runCase_eq]
  · simp [searchByCriteria, runCase_eq]
  · simp [searchByCriteria, runCase_eq]
  · simp [searchByCriteria, runCase_eq]
  · have h : searchByCriteria seedCatalog { inp with choice := 3, month := 1 } =
        menuText ++ "Enter month: " ++
          matchReport (fun e => e.findEventByMonth 1) seedCatalog "No events in this month.\n" := by
      simp [searchByCriteria, runCase_eq]
    rw [h]
    congr 1
  · have h : searchByCriteria seedCatalog { inp with choice := 4, year := 2025 } =
        menuText ++ "Enter year: " ++
          matchReport (fun e => e.findEventByYear 2025) seedCatalog "No events in this year.\n" := by
      simp [searchByCriteria, runCase_eq]
    rw [h]
    congr 1

/-- C7, as stated, fails: `findEvent("Day")` is false on the event labelled
"Birthday", whose label holds "day" in lower case only. -/
theorem birthday_does_not_match_Day :
    Calendar.stringFind "Birthday" "Day" = none ∧
    Calendar.findEvent ⟨5, 1, 2024, "Birthday"⟩ "Day" = false := by
  decide

/-- C7, amended: on the seed catalog the search by label substring "Day"
matches "International Women's Day" and no other event, and writes the one
line of that event; "Birthday" is matched by the keyword "day". -/
theorem seed_search_Day (inp : SearchInput) :
    seedEvents = .ok seedCatalog ∧
    seedCatalog.filter (fun e => e.findEvent "Day") =
      [⟨8, 3, 2024, "International Women's Day"⟩] ∧
    searchByCriteria seedCatalog { inp with choice := 1, keyword := "Day" } =
      menuText ++ "Enter event name: " ++
        "Event found: 8/3/2024 - International Women's Day\n" ∧
    Calendar.findEvent ⟨5, 1, 2024, "Birthday"⟩ "day" = true := by
  refine ⟨by decide, by decide, ?_, by decide⟩
  have h : searchByCriteria seedCatalog { inp with choice := 1, keyword := "Day" } =
      menuText ++ "Enter event name: " ++
        matchReport (fun e => e.findEvent "Day") seedCatalog "Event not found.\n" := by
    simp [searchByCriteria, runCase_eq]
  rw [h]
  congr 1

/-! ## The month table -/

/-- C9: `daysInMonth` is the Gregorian table: 31 days for the months 1, 3, 5,
7, 8, 10, 12, 30 days for 4, 6, 9, 11, and for February 29 days exactly when
the year is divisible by 4 and either not divisible by 100 or divisible by
400, else 28; so February has 29 days in 2000 and 2024, 28 in 1900 and 2023. -/
theorem daysInMonth_table (d y : Int) (e : String) :
    Calendar.daysInMonth ⟨d, 1, y, e⟩ = 31 ∧ Calendar.daysInMonth ⟨d, 3, y, e⟩ = 31 ∧
    Calendar.daysInMonth ⟨d, 5, y, e⟩ = 31 ∧ Calendar.daysInMonth ⟨d, 7, y, e⟩ = 31 ∧
    Calendar.daysInMonth ⟨d, 8, y, e⟩ = 31 ∧ Calendar.daysInMonth ⟨d, 10, y, e⟩ = 31 ∧
    Calendar.daysInMonth ⟨d, 12, y, e⟩ = 31 ∧
    Calendar.daysInMonth ⟨d, 4, y, e⟩ = 30 ∧ Calendar.daysInMonth ⟨d, 6, y, e⟩ = 30 ∧
    Calendar.daysInMonth ⟨d, 9, y, e⟩ = 30 ∧ Calendar.daysInMonth ⟨d, 11, y, e⟩ = 30 ∧
    Calendar.daysInMonth ⟨d, 2, y, e⟩ = (if 4 ∣ y ∧ (¬ 100 ∣ y ∨ 400 ∣ y) then 29 else 28) ∧
    Calendar.daysInMonth ⟨d, 2, 2000, e⟩ = 29 ∧ Calendar.daysInMonth ⟨d, 2, 2024, e⟩ = 29 ∧
    Calendar.daysInMonth ⟨d, 2, 1900, e⟩ = 28 ∧ Calendar.daysInMonth ⟨d, 2, 2023, e⟩ = 28 := by
  refine ⟨rfl, rfl, rfl, rfl, rfl, rfl, rfl, rfl, rfl, rfl, rfl, ?_, rfl, rfl, rfl, rfl⟩
  have h4 : y.tmod 4 = 0 ↔ (4 : Int) ∣ y := Int.dvd_iff_tmod_eq_zero.symm
  have h100 : y.tmod 100 = 0 ↔ (100 : Int) ∣ y := Int.dvd_iff_tmod_eq_zero.symm
  have h400 : y.tmod 400 = 0 ↔ (400 : Int) ∣ y := Int.dvd_iff_tmod_eq_zero.symm
  unfold Calendar.daysInMonth Calendar.isLeapYear
  simp only [beq_iff_eq, bne_iff_ne, Bool.or_eq_true, Bool.and_eq_true, ne_eq, h4, h100, h400]
  norm_num
  split_ifs <;> omega

/-! ## The order on dates -/

theorem opGt_iff (a b : Calendar) : Calendar.opGt a b = true ↔ a.DateAfter b := by
  unfold Calendar.opGt Calendar.DateAfter
  split_ifs <;> simp only [decide_eq_true_eq] <;> omega

/-- C10: `operator>` is the strict lexicographic order on (year, month, day)
and does not read the labels; it is irreflexive and transitive; of
`a > b`, `b > a` and "same date" exactly one holds; `operator<=` is the
negation of `operator>`. -/
theorem opGt_strict_lexicographic :
    (∀ a b : Calendar, Calendar.opGt a b = true ↔ a.DateAfter b) ∧
    (∀ (a b : Calendar) (ea eb : String),
        Calendar.opGt (a.setEvent ea) (b.setEvent eb) = Calendar.opGt a b) ∧
    (∀ a : Calendar, Calendar.opGt a a = false) ∧
    (∀ a b c : Calendar, Calendar.opGt a b = true → Calendar.opGt b c = true →
        Calendar.opGt a c = true) ∧
    (∀ a b : Calendar,
        (Calendar.opGt a b = true ∧ Calendar.opGt b a = false ∧ ¬ a.SameDate b) ∨
        (Calendar.opGt a b = false ∧ Calendar.opGt b a = true ∧ ¬ a.SameDate b) ∨
        (Calendar.opGt a b = false ∧ Calendar.opGt b a = false ∧ a.SameDate b)) ∧
    (∀ a b : Calendar, Calendar.opLe a b = !(Calendar.opGt a b)) := by
  refine ⟨opGt_iff, ?_, ?_, ?_, ?_, ?_⟩
  · intro a b ea eb
    rfl
  · intro a
    rw [← Bool.not_eq_true, opGt_iff]
    unfold Calendar.DateAfter
    omega
  · intro a b c hab hbc
    rw [opGt_iff] at hab hbc ⊢
    unfold Calendar.DateAfter at hab hbc ⊢
    omega
  · intro a b
    simp only [← Bool.not_eq_true, opGt_iff]
    unfold Calendar.DateAfter Calendar.SameDate
    omega
  · intro a b
    rfl

/-- The label-sensitive `operator==` is false on events whose dates differ. -/
theorem opEq_false_of_not_sameDate (a b : Calendar) (h : ¬ a.SameDate b) :
    Calendar.opEq a b = false := by
  unfold Calendar.SameDate at h
  unfold Calendar.opEq
  rw [← Bool.not_eq_true]
  simp only [Bool.and_eq_true, beq_iff_eq]
  intro hh
  exact h ⟨hh.1.2, hh.1.1.2, hh.1.1.1⟩

/-- C11: for two events whose dates differ, whatever their labels, `a < b`
holds exactly when the date of `a` precedes the date of `b` in the
lexicographic order on (year, month, day), that is exactly when `b > a`. -/
theorem opLt_iff_of_dates_differ (a b : Calendar) (h : ¬ a.SameDate b) :
    (Calendar.opLt a b = true ↔ b.DateAfter a) ∧
    Calendar.opLt a b = Calendar.opGt b a := by
  have he := opEq_false_of_not_sameDate a b h
  have hlt : Calendar.opLt a b = !(Calendar.opGt a b) := by
    unfold Calendar.opLt Calendar.opGe
    rw [he, Bool.or_false]
  have hiff : Calendar.opLt a b = true ↔ b.DateAfter a := by
    rw [hlt, Bool.not_eq_true', ← Bool.not_eq_true, opGt_iff]
    unfold Calendar.DateAfter
    unfold Calendar.SameDate at h
    omega
  refine ⟨hiff, ?_⟩
  rw [Bool.eq_iff_iff, hiff, opGt_iff]

/-- The events `Calendar(5,1,2024,"A")` and `Calendar(25,12,2024,"B")` of the
specification (C11). -/
theorem opLt_iff_of_dates_differ_witness :
    ¬ Calendar.SameDate ⟨5, 1, 2024, "A"⟩ ⟨25, 12, 2024, "B"⟩ ∧
    Calendar.opLt ⟨5, 1, 2024, "A"⟩ ⟨25, 12, 2024, "B"⟩ = true ∧
    ((Calendar.opLt ⟨5, 1, 2024, "A"⟩ ⟨25, 12, 2024, "B"⟩ = true ↔
        Calendar.DateAfter ⟨25, 12, 2024, "B"⟩ ⟨5, 1, 2024, "A"⟩) ∧
      Calendar.opLt ⟨5, 1, 2024, "A"⟩ ⟨25, 12, 2024, "B"⟩ =
        Calendar.opGt ⟨25, 12, 2024, "B"⟩ ⟨5, 1, 2024, "A"⟩) :=
  ⟨by unfold Calendar.SameDate; decide, by decide,
    opLt_iff_of_dates_differ ⟨5, 1, 2024, "A"⟩ ⟨25, 12, 2024, "B"⟩
      (by unfold Calendar.SameDate; decide)⟩

/-! ## The outcome of `operator+=` over the integers -/

/-- On a valid event `operator+=` returns normally when `day + n ≥ 1`. -/
theorem opAddAssign_ok_of_ge (c : Calendar) (n : Int) (hv : c.Valid) (h : 1 ≤ c.day + n) :
    (c.opAddAssign n).2 = .ok () := by
  obtain ⟨hm1, hm12, -, -, hy⟩ := hv
  unfold Calendar.opAddAssign
  dsimp only
  rw [Calendar.validateDate_ok_iff]
  have hm := Calendar.addLoop_month { c with day := c.day + n } hm1 hm12
  have hy2 := Calendar.addLoop_year { c with day := c.day + n }
  have hge := Calendar.addLoop_day_ge { c with day := c.day + n } h
  have hle := Calendar.addLoop_day_le { c with day := c.day + n }
  dsimp only at hy2
  exact ⟨hm.1, hm.2, hge, hle, by omega⟩

/-- When `day + n < 1` the loop of `operator+=` does not run: the object is
left with the day `day + n` and the other members as they were. -/
theorem opAddAssign_state_of_lt (c : Calendar) (n : Int) (h : c.day + n < 1) :
    (c.opAddAssign n).1 = { c with day := c.day + n } := by
  have h28 := Calendar.daysInMonth_ge { c with day := c.day + n }
  unfold Calendar.opAddAssign
  dsimp only
  rw [Calendar.addLoop_of_le _ (by dsimp only at h28 ⊢; omega)]

/-! ## The text of the search -/

/-- C13, as stated, fails: the line written for the matching event
5/1/2024 "Birthday" is "Event found: 5/1/2024 - Birthday", which is not the
formatted date followed by " - " and the label. -/
theorem match_line_has_heading :
    searchByCriteria [⟨5, 1, 2024, "Birthday"⟩] ⟨2, "", 5, 0, 0⟩ =
      menuText ++ "Enter day: " ++ "Event found: 5/1/2024 - Birthday\n" ∧
    Calendar.getEventDate ⟨5, 1, 2024, "Birthday"⟩ ++ " - " ++
        Calendar.getEvent ⟨5, 1, 2024, "Birthday"⟩ ++ "\n" = "5/1/2024 - Birthday\n" ∧
    foundLine ⟨5, 1, 2024, "Birthday"⟩ ≠
      Calendar.getEventDate ⟨5, 1, 2024, "Birthday"⟩ ++ " - " ++
        Calendar.getEvent ⟨5, 1, 2024, "Birthday"⟩ ++ "\n" := by
  refine ⟨?_, by decide, by decide⟩
  have h : searchByCriteria [⟨5, 1, 2024, "Birthday"⟩] ⟨2, "", 5, 0, 0⟩ =
      menuText ++ "Enter day: " ++
        matchReport (fun e => e.findEventByDay 5) [⟨5, 1, 2024, "Birthday"⟩]
          "No events on this day.\n" := by
    simp [searchByCriteria, runCase_eq]
  rw [h]
  congr 1

/-- C13, amended: every match line written by the search is the heading
"Event found: ", then the formatted date, then " - ", the label and the end
of line, where the formatted date is the decimal day, month and year, not
padded, joined by "/"; so the line of 5/1/2024 "Birthday" is
"Event found: 5/1/2024 - Birthday". -/
theorem match_line_format (events : List Calendar) (inp : SearchInput) :
    (∀ e : Calendar,
        foundLine e = "Event found: " ++ e.getEventDate ++ " - " ++ e.getEvent ++ "\n" ∧
        e.getEventDate = toString e.day ++ "/" ++ toString e.month ++ "/" ++ toString e.year ∧
        e.getEvent = e.event) ∧
    (∀ (p : Calendar → Bool) (out : String) (found : Bool),
        (scanEvents p events (out, found)).1 =
          out ++ concatLines ((events.filter p).map
            (fun e => "Event found: " ++
              (toString e.day ++ "/" ++ toString e.month ++ "/" ++ toString e.year) ++
              " - " ++ e.event ++ "\n"))) ∧
    searchByCriteria events { inp with choice := 1 } =
      runCase (fun e => e.findEvent inp.keyword) events
        (menuText ++ "Enter event name: ") "Event not found.\n" ∧
    searchByCriteria events { inp with choice := 2 } =
      runCase (fun e => e.findEventByDay inp.day) events
        (menuText ++ "Enter day: ") "No events on this day.\n" ∧
    searchByCriteria events { inp with choice := 3 } =
      runCase (fun e => e.findEventByMonth inp.month) events
        (menuText ++ "Enter month: ") "No events in this month.\n" ∧
    searchByCriteria events { inp with choice := 4 } =
      runCase (fun e => e.findEventByYear inp.year) events
        (menuText ++ "Enter year: ") "No events in this year.\n" ∧
    searchByCriteria events { inp with choice := 5 } =
      runCase (fun e => e.findEventByDate inp.day inp.month inp.year) events
        (menuText ++ "Enter day: " ++ "Enter month: " ++ "Enter year: ")
        "No events on this date.\n" ∧
    foundLine ⟨5, 1, 2024, "Birthday"⟩ = "Event found: 5/1/2024 - Birthday\n" ∧
    foundLine ⟨25, 12, 2024, "Christmas"⟩ = "Event found: 25/12/2024 - Christmas\n" := by
  refine ⟨fun e => ⟨rfl, rfl, rfl⟩, ?_, ?_, ?_, ?_, ?_, ?_, by decide, by decide⟩
  · intro p out found
    rw [scanEvents_eq]
    rfl
  · simp [searchByCriteria]
  · simp [searchByCriteria]
  · simp [searchByCriteria]
  · simp [searchByCriteria]
  · simp [searchByCriteria]

/-- C14: for every choice outside 1..5 and every catalog, the search writes
the menu and then only "Invalid choice."; the text does not depend on the
catalog, which is not scanned. -/
theorem invalid_choice_reported (events : List Calendar) (inp : SearchInput)
    (h : inp.choice < 1 ∨ 5 < inp.choice) :
    searchByCriteria events inp = menuText ++ "Invalid choice.\n" ∧
    searchByCriteria events inp = searchByCriteria [] inp := by
  have key : ∀ evs : List Calendar,
      searchByCriteria evs inp = menuText ++ "Invalid choice.\n" := by
    intro evs
    unfold searchByCriteria
    dsimp only
    rw [if_neg (by omega), if_neg (by omega), if_neg (by omega), if_neg (by omega),
      if_neg (by omega)]
  exact ⟨key events, by rw [key events, key []]⟩

/-- The choices 7 and 0 on the seed catalog (C14). -/
theorem invalid_choice_reported_witness :
    ((7 : Int) < 1 ∨ (5 : Int) < 7) ∧
    (searchByCriteria seedCatalog ⟨7, "Day", 1, 1, 2024⟩ = menuText ++ "Invalid choice.\n" ∧
      searchByCriteria seedCatalog ⟨7, "Day", 1, 1, 2024⟩ =
        searchByCriteria [] ⟨7, "Day", 1, 1, 2024⟩) ∧
    (searchByCriteria seedCatalog ⟨0, "Day", 1, 1, 2024⟩ = menuText ++ "Invalid choice.\n" ∧
      searchByCriteria seedCatalog ⟨0, "Day", 1, 1, 2024⟩ =
        searchByCriteria [] ⟨0, "Day", 1, 1, 2024⟩) :=
  ⟨by decide, invalid_choice_reported seedCatalog ⟨7, "Day", 1, 1, 2024⟩ (by decide),
    invalid_choice_reported seedCatalog ⟨0, "Day", 1, 1, 2024⟩ (by decide)⟩

/-- The empty keyword is found at position 0 of every string. -/
theorem stringFind_empty (s : String) : Calendar.stringFind s "" = some 0 := by
  unfold Calendar.stringFind Calendar.findFrom
  cases h : s.data <;> simp [List.isPrefixOf]

/-- C20: `findEvent("")` is true on every event, so the search by label with
the empty text writes one line for every event of the catalog, in catalog
order, and writes "Event not found." only when the catalog is empty. -/
theorem empty_keyword_matches_all (events : List Calendar) (inp : SearchInput) :
    (∀ c : Calendar, c.findEvent "" = true) ∧
    events.filter (fun e => e.findEvent "") = events ∧
    searchByCriteria events { inp with choice := 1, keyword := "" } =
      menuText ++ "Enter event name: " ++ concatLines (events.map foundLine) ++
        (if events.isEmpty then "Event not found.\n" else "") := by
  have hall : ∀ c : Calendar, c.findEvent "" = true := by
    intro c
    unfold Calendar.findEvent
    rw [stringFind_empty]
    rfl
  have hfilter : events.filter (fun e => e.findEvent "") = events := by
    rw [List.filter_eq_self]
    intro a _
    exact hall a
  refine ⟨hall, hfilter, ?_⟩
  have h : searchByCriteria events { inp with choice := 1, keyword := "" } =
      menuText ++ "Enter event name: " ++
        matchReport (fun e => e.findEvent "") events "Event not found.\n" := by
    simp [searchByCriteria, runCase_eq]
  rw [h]
  unfold matchReport
  rw [hfilter]
  simp only [String.append_assoc]

/-! ## Termination of the loops -/

/-- The body of the addition loop undoes the body of the subtraction loop on
the month and year, and takes off the month length that was added. -/
theorem addStep_subStep (c : Calendar) (x : Int) (h1 : 1 ≤ c.month) (h12 : c.month ≤ 12) :
    Calendar.addStep { c.subStep with day := x } =
      { c with day := x - c.subStep.daysInMonth } := by
  have hm : (Calendar.addStep { c.subStep with day := x }).month = c.month := by
    rw [Calendar.addStep_month]
    dsimp only
    rw [Calendar.subStep_month]
    split_ifs <;> omega
  have hy : (Calendar.addStep { c.subStep with day := x }).year = c.year := by
    rw [Calendar.addStep_year]
    dsimp only
    rw [Calendar.subStep_month, Calendar.subStep_year]
    split_ifs <;> omega
  have hd : (Calendar.addStep { c.subStep with day := x }).day =
      x - c.subStep.daysInMonth := by
    rw [Calendar.addStep_day]
    dsimp only
    rw [Calendar.daysInMonth_congr (a := { c.subStep with day := x }) (b := c.subStep) rfl rfl]
  have he : (Calendar.addStep { c.subStep with day := x }).event = c.event := by
    rw [Calendar.addStep_event]
    dsimp only
    rw [Calendar.subStep_event]
  cases hs : Calendar.addStep { c.subStep with day := x } with
  | mk d m y e =>
    rw [hs] at hm hy hd he
    dsimp only at hm hy hd he
    subst hm hy hd he
    rfl

/-- The addition loop, started on the result of the subtraction loop with the
same amount put back on the day, arrives where it arrives from the start of
the subtraction loop. -/
theorem addLoop_subLoop (c : Calendar) (n : Int) (h1 : 1 ≤ c.month) (h12 : c.month ≤ 12)
    (hd : 1 ≤ c.day + n) :
    Calendar.addLoop { Calendar.subLoop c with day := (Calendar.subLoop c).day + n } =
      Calendar.addLoop { c with day := c.day + n } := by
  induction c using Calendar.subLoop.induct with
  | case1 c h ih =>
    have h28 := Calendar.daysInMonth_ge c.subStep
    have hm : 1 ≤ c.subStep.month ∧ c.subStep.month ≤ 12 := by
      rw [Calendar.subStep_month]; split_ifs <;> omega
    have hday := Calendar.subStep_day c
    have hdim : ({ c.subStep with day := c.subStep.day + n } : Calendar).daysInMonth =
        c.subStep.daysInMonth := Calendar.daysInMonth_congr rfl rfl
    rw [Calendar.subLoop_of_lt c h, ih hm.1 hm.2 (by omega)]
    rw [Calendar.addLoop_of_gt _ (by rw [hdim]; dsimp only; omega)]
    rw [addStep_subStep c _ h1 h12]
    congr 2
    omega
  | case2 c h => rw [Calendar.subLoop_of_ge c h]

/-- Over the integers: for every valid event and every `n`, adding `n` days
to the object that subtracting `n` days has left returns normally and gives
back the event. -/
theorem opSubAssign_opAddAssign (c : Calendar) (n : Int) (hv : c.Valid) :
    (c.opSubAssign n).1.opAddAssign n = (c, .ok ()) ∧
    Calendar.opEq ((c.opSubAssign n).1.opAddAssign n).1 c = true := by
  obtain ⟨hm1, hm12, hd1, hdle, hy⟩ := hv
  have hvalid : c.Valid := ⟨hm1, hm12, hd1, hdle, hy⟩
  have hback : (c.opSubAssign n).1.opAddAssign n = (c, .ok ()) := by
    unfold Calendar.opSubAssign Calendar.opAddAssign
    dsimp only
    have key := addLoop_subLoop { c with day := c.day - n } n hm1 hm12 (by dsimp only; omega)
    dsimp only at key
    have hc : ({ c with day := c.day - n + n } : Calendar) = c := by
      cases c
      dsimp only
      congr 1
      omega
    rw [key, hc, Calendar.addLoop_of_le c (by omega),
      (Calendar.validateDate_ok_iff c).2 hvalid]
  refine ⟨hback, ?_⟩
  rw [hback]
  simp [Calendar.opEq]

/-! ## The day number -/

theorem monthDays_ge (m y : Int) : 28 ≤ monthDays m y :=
  Calendar.daysInMonth_ge _

theorem monthDays_eq (c : Calendar) : monthDays c.month c.year = c.daysInMonth :=
  Calendar.daysInMonth_congr rfl rfl

theorem daysBeforeMonth_one (y : Int) : daysBeforeMonth 1 y = 0 := by
  simp [daysBeforeMonth]

theorem daysBeforeMonth_succ (m y : Int) (h1 : 1 ≤ m) :
    daysBeforeMonth (m + 1) y = daysBeforeMonth m y + monthDays m y := by
  have hk : (m + 1 - 1).toNat = (m - 1).toNat + 1 := by omega
  have hc : (((m - 1).toNat : Nat) : Int) + 1 = m := by omega
  unfold daysBeforeMonth
  rw [hk, List.range_succ, List.map_append, List.sum_append]
  simp only [List.map_cons, List.map_nil, List.sum_cons, List.sum_nil, Int.add_zero]
  rw [hc]

theorem yearDays_eq (y : Int) : yearDays y = daysBeforeMonth 12 y + monthDays 12 y := by
  have h11 : ((12 : Int) - 1).toNat = 11 := by decide
  unfold yearDays daysBeforeMonth
  rw [h11]
  simp [List.range_succ]
  omega

theorem daysBeforeYear_zero : daysBeforeYear 0 = 0 := by
  simp [daysBeforeYear]

theorem daysBeforeYear_succ (y : Int) (h0 : 0 ≤ y) :
    daysBeforeYear (y + 1) = daysBeforeYear y + yearDays y := by
  have hk : (y + 1).toNat = y.toNat + 1 := by omega
  have hc : ((y.toNat : Nat) : Int) = y := by omega
  unfold daysBeforeYear
  rw [hk, List.range_succ, List.map_append, List.sum_append]
  simp only [List.map_cons, List.map_nil, List.sum_cons, List.sum_nil, Int.add_zero]
  rw [hc]

/-- Each later month starts after the end of each earlier month. -/
theorem daysBeforeMonth_mono (m m2 y : Int) (h1 : 1 ≤ m) (hlt : m < m2) :
    daysBeforeMonth m y + monthDays m y ≤ daysBeforeMonth m2 y := by
  have key : ∀ k : Nat, daysBeforeMonth m y + monthDays m y ≤ daysBeforeMonth (m + 1 + k) y := by
    intro k
    induction k with
    | zero =>
      rw [Nat.cast_zero, Int.add_zero, daysBeforeMonth_succ m y h1]
    | succ k ih =>
      have hs := daysBeforeMonth_succ (m + 1 + k) y (by omega)
      have h28 := monthDays_ge (m + 1 + k) y
      have he : m + 1 + ((k + 1 : Nat) : Int) = m + 1 + k + 1 := by push_cast; omega
      rw [he, hs]
      omega
  have hk := key (m2 - m - 1).toNat
  have he : m + 1 + (((m2 - m - 1).toNat : Nat) : Int) = m2 := by omega
  rw [he] at hk
  exact hk

theorem daysBeforeMonth_nonneg (m y : Int) (h1 : 1 ≤ m) : 0 ≤ daysBeforeMonth m y := by
  rcases lt_or_ge 1 m with h | h
  · have := daysBeforeMonth_mono 1 m y (by omega) h
    have h28 := monthDays_ge 1 y
    rw [daysBeforeMonth_one] at this
    omega
  · have : m = 1 := by omega
    rw [this, daysBeforeMonth_one]

/-- Each month of a year ends within the year. -/
theorem daysBeforeMonth_le_yearDays (m y : Int) (h1 : 1 ≤ m) (h12 : m ≤ 12) :
    daysBeforeMonth m y + monthDays m y ≤ yearDays y := by
  rw [yearDays_eq]
  rcases lt_or_ge m 12 with h | h
  · have := daysBeforeMonth_mono m 12 y h1 h
    have h28 := monthDays_ge 12 y
    omega
  · have : m = 12 := by omega
    rw [this]

theorem yearDays_pos (y : Int) : 0 < yearDays y := by
  have := daysBeforeMonth_le_yearDays 1 y (by omega) (by omega)
  have h28 := monthDays_ge 1 y
  rw [daysBeforeMonth_one] at this
  omega

/-- Each later year starts after the end of each earlier year. -/
theorem daysBeforeYear_mono (y y2 : Int) (h0 : 0 ≤ y) (hlt : y < y2) :
    daysBeforeYear y + yearDays y ≤ daysBeforeYear y2 := by
  have key : ∀ k : Nat, daysBeforeYear y + yearDays y ≤ daysBeforeYear (y + 1 + k) := by
    intro k
    induction k with
    | zero =>
      rw [Nat.cast_zero, Int.add_zero, daysBeforeYear_succ y h0]
    | succ k ih =>
      have hs := daysBeforeYear_succ (y + 1 + k) (by omega)
      have hp := yearDays_pos (y + 1 + k)
      have he : y + 1 + ((k + 1 : Nat) : Int) = y + 1 + k + 1 := by push_cast; omega
      rw [he, hs]
      omega
  have hk := key (y2 - y - 1).toNat
  have he : y + 1 + (((y2 - y - 1).toNat : Nat) : Int) = y2 := by omega
  rw [he] at hk
  exact hk

theorem daysBeforeYear_nonneg (y : Int) (h0 : 0 ≤ y) : 0 ≤ daysBeforeYear y := by
  rcases lt_or_ge 0 y with h | h
  · have := daysBeforeYear_mono 0 y (by omega) h
    have hp := yearDays_pos 0
    rw [daysBeforeYear_zero] at this
    omega
  · have : y = 0 := by omega
    rw [this, daysBeforeYear_zero]

/-- A pass through the body of the addition loop keeps the day number. -/
theorem dayNumber_addStep (c : Calendar) (h1 : 1 ≤ c.month) (h12 : c.month ≤ 12)
    (hy : 0 ≤ c.year) : c.addStep.dayNumber = c.dayNumber := by
  unfold Calendar.dayNumber
  rw [Calendar.addStep_day, Calendar.addStep_month, Calendar.addStep_year, ← monthDays_eq c]
  split_ifs with h
  · have hm : c.month = 12 := by omega
    rw [daysBeforeYear_succ c.year hy, daysBeforeMonth_one, yearDays_eq, hm]
    omega
  · rw [daysBeforeMonth_succ c.month c.year h1]
    omega

/-- A pass through the body of the subtraction loop that stays in the years
from 0 on keeps the day number. -/
theorem dayNumber_subStep (c : Calendar) (h1 : 1 ≤ c.month) (h12 : c.month ≤ 12)
    (hy : 0 ≤ c.subStep.year) : c.subStep.dayNumber = c.dayNumber := by
  have hd := Calendar.subStep_day c
  have hmd := monthDays_eq c.subStep
  rw [Calendar.subStep_year] at hy
  unfold Calendar.dayNumber
  rw [hd, ← hmd, Calendar.subStep_month, Calendar.subStep_year]
  split_ifs with h
  · have hm : c.month = 1 := by omega
    rw [if_pos h] at hy
    have hs := daysBeforeYear_succ (c.year - 1) hy
    have he : c.year - 1 + 1 = c.year := by omega
    rw [he] at hs
    rw [hs, hm, daysBeforeMonth_one, yearDays_eq]
    omega
  · have hs := daysBeforeMonth_succ (c.month - 1) c.year (by omega)
    have he : c.month - 1 + 1 = c.month := by omega
    rw [he] at hs
    rw [hs]
    omega

/-- The addition loop keeps the day number. -/
theorem dayNumber_addLoop (c : Calendar) (h1 : 1 ≤ c.month) (h12 : c.month ≤ 12)
    (hy : 0 ≤ c.year) : (Calendar.addLoop c).dayNumber = c.dayNumber := by
  induction c using Calendar.addLoop.induct with
  | case1 c h ih =>
    have hm : 1 ≤ c.addStep.month ∧ c.addStep.month ≤ 12 := by
      rw [Calendar.addStep_month]; split_ifs <;> omega
    have hy2 : 0 ≤ c.addStep.year := by
      rw [Calendar.addStep_year]; split_ifs <;> omega
    rw [Calendar.addLoop_of_gt c h, ih hm.1 hm.2 hy2, dayNumber_addStep c h1 h12 hy]
  | case2 c h => rw [Calendar.addLoop_of_le c h]

/-- The subtraction loop never raises the year. -/
theorem subLoop_year_le (c : Calendar) : (Calendar.subLoop c).year ≤ c.year := by
  induction c using Calendar.subLoop.induct with
  | case1 c h ih =>
    rw [Calendar.subLoop_of_lt c h]
    have : c.subStep.year ≤ c.year := by
      rw [Calendar.subStep_year]; split_ifs <;> omega
    omega
  | case2 c h => rw [Calendar.subLoop_of_ge c h]

/-- The subtraction loop keeps the month within 1..12. -/
theorem subLoop_month (c : Calendar) (h1 : 1 ≤ c.month) (h12 : c.month ≤ 12) :
    1 ≤ (Calendar.subLoop c).month ∧ (Calendar.subLoop c).month ≤ 12 := by
  induction c using Calendar.subLoop.induct with
  | case1 c h ih =>
    rw [Calendar.subLoop_of_lt c h]
    apply ih
    · rw [Calendar.subStep_month]; split_ifs <;> omega
    · rw [Calendar.subStep_month]; split_ifs <;> omega
  | case2 c h => rw [Calendar.subLoop_of_ge c h]; exact ⟨h1, h12⟩

/-- The subtraction loop stops with a day that is at least 1. -/
theorem subLoop_day_ge (c : Calendar) : 1 ≤ (Calendar.subLoop c).day := by
  induction c using Calendar.subLoop.induct with
  | case1 c h ih => rw [Calendar.subLoop_of_lt c h]; exact ih
  | case2 c h => rw [Calendar.subLoop_of_ge c h]; omega

/-- The subtraction loop keeps a day that is inside its month inside the
month it reaches. -/
theorem subLoop_day_le (c : Calendar) (hd : c.day ≤ c.daysInMonth) :
    (Calendar.subLoop c).day ≤ (Calendar.subLoop c).daysInMonth := by
  induction c using Calendar.subLoop.induct with
  | case1 c h ih =>
    rw [Calendar.subLoop_of_lt c h]
    apply ih
    rw [Calendar.subStep_day]
    omega
  | case2 c h => rw [Calendar.subLoop_of_ge c h]; exact hd

/-- The subtraction loop keeps the day number when it ends in a year from 0
on. -/
theorem dayNumber_subLoop (c : Calendar) (h1 : 1 ≤ c.month) (h12 : c.month ≤ 12)
    (hy : 0 ≤ (Calendar.subLoop c).year) : (Calendar.subLoop c).dayNumber = c.dayNumber := by
  induction c using Calendar.subLoop.induct with
  | case1 c h ih =>
    have hm : 1 ≤ c.subStep.month ∧ c.subStep.month ≤ 12 := by
      rw [Calendar.subStep_month]; split_ifs <;> omega
    rw [Calendar.subLoop_of_lt c h] at hy ⊢
    have hle := subLoop_year_le c.subStep
    rw [ih hm.1 hm.2 hy, dayNumber_subStep c h1 h12 (by omega)]
  | case2 c h => rw [Calendar.subLoop_of_ge c h]

/-- The day number of a valid date is not negative. -/
theorem dayNumber_nonneg (c : Calendar) (hv : c.Valid) : 0 ≤ c.dayNumber := by
  obtain ⟨hm1, hm12, hd1, hdle, hy⟩ := hv
  have h1 := daysBeforeYear_nonneg c.year hy
  have h2 := daysBeforeMonth_nonneg c.month c.year hm1
  unfold Calendar.dayNumber
  omega

/-- On valid dates the day number grows strictly with the date. -/
theorem dayNumber_lt_of_dateAfter (a b : Calendar) (ha : a.Valid) (hb : b.Valid)
    (h : a.DateAfter b) : b.dayNumber < a.dayNumber := by
  obtain ⟨am1, am12, ad1, adle, ay⟩ := ha
  obtain ⟨bm1, bm12, bd1, bdle, bY⟩ := hb
  have hbm := daysBeforeMonth_le_yearDays b.month b.year bm1 bm12
  have hbd := monthDays_eq b
  have hanm := daysBeforeMonth_nonneg a.month a.year am1
  unfold Calendar.dayNumber
  unfold Calendar.DateAfter at h
  rcases h with h | ⟨hy, h | ⟨hm, hd⟩⟩
  · have := daysBeforeYear_mono b.year a.year bY h
    omega
  · have := daysBeforeMonth_mono b.month a.month b.year bm1 h
    rw [hy]
    omega
  · rw [hy, hm]
    omega

/-- Two valid dates with the same day number are the same date. -/
theorem sameDate_of_dayNumber_eq (a b : Calendar) (ha : a.Valid) (hb : b.Valid)
    (h : a.dayNumber = b.dayNumber) : a.SameDate b := by
  by_contra hne
  have hab : a.DateAfter b ∨ b.DateAfter a := by
    unfold Calendar.DateAfter
    unfold Calendar.SameDate at hne
    omega
  rcases hab with h1 | h1
  · have := dayNumber_lt_of_dateAfter a b ha hb h1
    omega
  · have := dayNumber_lt_of_dateAfter b a hb ha h1
    omega

/-- Two events with the same date and the same label are equal. -/
theorem eq_of_sameDate_of_event (a b : Calendar) (h : a.SameDate b) (he : a.event = b.event) :
    a = b := by
  obtain ⟨hy, hm, hd⟩ := h
  cases a
  cases b
  dsimp only at hy hm hd he
  subst hy hm hd he
  rfl

/-- On a valid event with `day + n ≥ 1`, `operator+=` leaves a valid event
with the day number raised by `n` and the label of before. -/
theorem opAddAssign_dayNumber (c : Calendar) (n : Int) (hv : c.Valid) (h : 1 ≤ c.day + n) :
    (c.opAddAssign n).1.Valid ∧
    (c.opAddAssign n).1.dayNumber = c.dayNumber + n ∧
    (c.opAddAssign n).1.event = c.event := by
  have hok := opAddAssign_ok_of_ge c n hv h
  obtain ⟨hm1, hm12, -, -, hy⟩ := hv
  refine ⟨(Calendar.validateDate_ok_iff _).1 hok, ?_, ?_⟩
  · unfold Calendar.opAddAssign
    dsimp only
    rw [dayNumber_addLoop { c with day := c.day + n } hm1 hm12 hy]
    unfold Calendar.dayNumber
    dsimp only
    omega
  · unfold Calendar.opAddAssign
    dsimp only
    rw [Calendar.addLoop_event]

/-- On a valid event, `operator-=` with an amount `n ≥ 0` that does not exceed
the day number returns normally. -/
theorem opSubAssign_ok_of_le (c : Calendar) (n : Int) (hv : c.Valid) (hn : 0 ≤ n)
    (hle : n ≤ c.dayNumber) : (c.opSubAssign n).2 = .ok () := by
  -- the valid date `t` whose day number is `c.dayNumber - n`
  have hv0 : Calendar.Valid ⟨1, 1, 0, c.event⟩ := by
    simp [Calendar.Valid, Calendar.daysInMonth]
  have hn0 : Calendar.dayNumber ⟨1, 1, 0, c.event⟩ = 0 := by
    unfold Calendar.dayNumber
    dsimp only
    rw [daysBeforeYear_zero, daysBeforeMonth_one]
    rfl
  obtain ⟨htv, htn, hte⟩ :=
    opAddAssign_dayNumber ⟨1, 1, 0, c.event⟩ (c.dayNumber - n) hv0 (by dsimp only; omega)
  generalize (Calendar.opAddAssign ⟨1, 1, 0, c.event⟩ (c.dayNumber - n)).1 = t at htv htn hte
  dsimp only at hte
  rw [hn0] at htn
  -- adding `n` days to `t` gives `c`
  obtain ⟨huv, hun, hue⟩ := opAddAssign_dayNumber t n htv (by have := htv.2.2.1; omega)
  have huc : (t.opAddAssign n).1 = c :=
    eq_of_sameDate_of_event _ _
      (sameDate_of_dayNumber_eq _ _ huv hv (by rw [hun, htn]; omega)) (by rw [hue, hte])
  -- so the subtraction loop started from `c` arrives at `t`
  have hdim : ({ t with day := t.day + n } : Calendar).daysInMonth = t.daysInMonth :=
    Calendar.daysInMonth_congr rfl rfl
  have key := Calendar.subLoop_addLoop { t with day := t.day + n } n htv.1 htv.2.1
    (by rw [hdim]; dsimp only; have := htv.2.2.2.1; omega)
  have huc2 : Calendar.addLoop { t with day := t.day + n } = c := huc
  rw [huc2] at key
  dsimp only at key
  have ht : ({ day := t.day + n - n, month := t.month, year := t.year, event := t.event } :
      Calendar) = t := by
    cases t
    dsimp only
    congr 1
    omega
  rw [ht, Calendar.subLoop_of_ge t (by have := htv.2.2.1; omega)] at key
  unfold Calendar.opSubAssign
  dsimp only
  rw [key, (Calendar.validateDate_ok_iff t).2 htv]

/-- On a valid event, `operator-=` with an amount that exceeds the day number
throws "Invalid year.". -/
theorem opSubAssign_error_of_lt (c : Calendar) (n : Int) (hv : c.Valid) (hn : 0 ≤ n)
    (hlt : c.dayNumber < n) :
    (c.opSubAssign n).2 = .error (.invalid_argument "Invalid year.") := by
  obtain ⟨hm1, hm12, hd1, hdle, hy⟩ := hv
  have hdim : ({ c with day := c.day - n } : Calendar).daysInMonth = c.daysInMonth :=
    Calendar.daysInMonth_congr rfl rfl
  have hm := subLoop_month { c with day := c.day - n } hm1 hm12
  have hge := subLoop_day_ge { c with day := c.day - n }
  have hle := subLoop_day_le { c with day := c.day - n } (by rw [hdim]; dsimp only; omega)
  have hyear : (Calendar.subLoop { c with day := c.day - n }).year < 0 := by
    by_contra hnot
    have hpres := dayNumber_subLoop { c with day := c.day - n } hm1 hm12 (by omega)
    have hnn := dayNumber_nonneg (Calendar.subLoop { c with day := c.day - n })
      ⟨hm.1, hm.2, hge, hle, by omega⟩
    have hshift : Calendar.dayNumber { c with day := c.day - n } = c.dayNumber - n := by
      unfold Calendar.dayNumber
      dsimp only
      omega
    omega
  unfold Calendar.opSubAssign
  dsimp only
  unfold Calendar.validateDate
  rw [if_neg (by omega), if_neg (by omega), if_pos hyear]

/-- C16: for every valid event and every `n ≥ 0`, `operator-=` throws
`std::invalid_argument` exactly when `n` exceeds the days elapsed from
1 January of year 0 to the event, and then the message is "Invalid year.";
when it returns normally it leaves the valid date whose day number is `n`
less, with the label of before. -/
theorem subtract_days_fails_iff (c : Calendar) (n : Int) (hv : c.Valid) (hn : 0 ≤ n) :
    ((∃ msg, (c.opSubAssign n).2 = .error (.invalid_argument msg)) ↔ c.dayNumber < n) ∧
    (c.dayNumber < n →
        (c.opSubAssign n).2 = .error (.invalid_argument "Invalid year.")) ∧
    ((c.opSubAssign n).2 = .ok () ↔ n ≤ c.dayNumber) ∧
    ((c.opSubAssign n).2 = .ok () →
        (c.opSubAssign n).1.Valid ∧
        (c.opSubAssign n).1.dayNumber = c.dayNumber - n ∧
        (c.opSubAssign n).1.event = c.event) := by
  have hfail := opSubAssign_error_of_lt c n hv hn
  have hsucc := opSubAssign_ok_of_le c n hv hn
  refine ⟨⟨?_, fun h => ⟨_, hfail h⟩⟩, hfail, ⟨?_, hsucc⟩, ?_⟩
  · rintro ⟨msg, hmsg⟩
    by_contra hnot
    rw [hsucc (by omega)] at hmsg
    cases hmsg
  · intro hok
    by_contra hnot
    rw [hfail (by omega)] at hok
    cases hok
  · intro hok
    have hval : (c.opSubAssign n).1.Valid := (Calendar.validateDate_ok_iff _).1 hok
    refine ⟨hval, ?_, ?_⟩
    · have hy := hval.2.2.2.2
      unfold Calendar.opSubAssign at hy ⊢
      dsimp only at hy ⊢
      rw [dayNumber_subLoop { c with day := c.day - n } hv.1 hv.2.1 hy]
      unfold Calendar.dayNumber
      dsimp only
      omega
    · unfold Calendar.opSubAssign
      dsimp only
      rw [Calendar.subLoop_event]

/-- The event 1/1/0, whose day number is 0, with 1 day, and the event 1/3/0,
whose day number is 60, with 60 days (C16). -/
theorem subtract_days_fails_iff_witness :
    Calendar.Valid ⟨1, 1, 0, "Epoch"⟩ ∧ (0 : Int) ≤ 1 ∧
    Calendar.dayNumber ⟨1, 1, 0, "Epoch"⟩ = 0 ∧
    (Calendar.opSubAssign ⟨1, 1, 0, "Epoch"⟩ 1).2 = .error (.invalid_argument "Invalid year.") ∧
    Calendar.Valid ⟨1, 3, 0, "Epoch"⟩ ∧ (0 : Int) ≤ 60 ∧
    Calendar.dayNumber ⟨1, 3, 0, "Epoch"⟩ = 60 ∧
    (Calendar.opSubAssign ⟨1, 3, 0, "Epoch"⟩ 60).2 = .ok () ∧
    ((Calendar.opSubAssign ⟨1, 3, 0, "Epoch"⟩ 60).1.Valid ∧
      (Calendar.opSubAssign ⟨1, 3, 0, "Epoch"⟩ 60).1.dayNumber =
        Calendar.dayNumber ⟨1, 3, 0, "Epoch"⟩ - 60 ∧
      (Calendar.opSubAssign ⟨1, 3, 0, "Epoch"⟩ 60).1.event = "Epoch") := by
  have hn0 : Calendar.dayNumber ⟨1, 1, 0, "Epoch"⟩ = 0 := by decide
  have hn60 : Calendar.dayNumber ⟨1, 3, 0, "Epoch"⟩ = 60 := by decide
  have h := subtract_days_fails_iff ⟨1, 1, 0, "Epoch"⟩ 1 (by decide) (by decide)
  have h2 := subtract_days_fails_iff ⟨1, 3, 0, "Epoch"⟩ 60 (by decide) (by decide)
  have hok := h2.2.2.1.2 (by rw [hn60])
  exact ⟨by decide, by decide, hn0, h.2.1 (by rw [hn0]; decide),
    by decide, by decide, hn60, hok, h2.2.2.2 hok⟩

/-! ## The arithmetic of `int` -/

/-- An operation whose result is within the range of `int` gives that
result. -/
theorem wrapInt32_of_range (x : Int) (hlo : -2147483648 ≤ x) (hhi : x ≤ 2147483647) :
    Calendar.wrapInt32 x = x := by
  unfold Calendar.wrapInt32
  omega

theorem addStep32_event (c : Calendar) : c.addStep32.event = c.event := by
  unfold Calendar.addStep32
  dsimp only
  split_ifs <;> rfl

theorem subStep32_event (c : Calendar) : c.subStep32.event = c.event := by
  unfold Calendar.subStep32
  dsimp only
  split_ifs <;> rfl

/-- Where no operation of the pass overflows, the pass with the arithmetic of
`int` is the pass over the integers. -/
theorem addStep32_eq (c : Calendar) (h1 : 1 ≤ c.month) (h12 : c.month ≤ 12)
    (hgt : c.day > c.daysInMonth) (hd : c.day ≤ 2147483647)
    (hylo : -2147483648 ≤ c.year) (hyhi : c.addStep.year ≤ 2147483647) :
    c.addStep32 = c.addStep := by
  have h28 := Calendar.daysInMonth_ge c
  have hday : Calendar.wrapInt32 (c.day - c.daysInMonth) = c.day - c.daysInMonth :=
    wrapInt32_of_range _ (by omega) (by omega)
  have hmon : Calendar.wrapInt32 (c.month + 1) = c.month + 1 :=
    wrapInt32_of_range _ (by omega) (by omega)
  rw [Calendar.addStep_year] at hyhi
  unfold Calendar.addStep32 Calendar.addStep
  dsimp only
  rw [hday, hmon]
  split_ifs with h
  · rw [if_pos h] at hyhi
    rw [wrapInt32_of_range (c.year + 1) (by omega) hyhi]
  · rfl

/-- Where no operation of the pass overflows, the pass with the arithmetic of
`int` is the pass over the integers. -/
theorem subStep32_eq (c : Calendar) (h1 : 1 ≤ c.month) (h12 : c.month ≤ 12)
    (hlt : c.day < 1) (hd : -2147483648 ≤ c.day)
    (hyhi : c.year ≤ 2147483647) (hylo : -2147483648 ≤ c.subStep.year) :
    c.subStep32 = c.subStep := by
  have hmon : Calendar.wrapInt32 (c.month - 1) = c.month - 1 :=
    wrapInt32_of_range _ (by omega) (by omega)
  rw [Calendar.subStep_year] at hylo
  unfold Calendar.subStep32 Calendar.subStep
  dsimp only
  rw [hmon]
  split_ifs with h
  · rw [if_pos h] at hylo
    rw [wrapInt32_of_range (c.year - 1) hylo (by omega)]
    dsimp only
    have h28 := Calendar.daysInMonth_ge
      { day := c.day, month := 12, year := c.year - 1, event := c.event }
    have h31 := Calendar.daysInMonth_le
      { day := c.day, month := 12, year := c.year - 1, event := c.event }
    rw [wrapInt32_of_range _ (by omega) (by omega)]
  · dsimp only
    have h28 := Calendar.daysInMonth_ge
      { day := c.day, month := c.month - 1, year := c.year, event := c.event }
    have h31 := Calendar.daysInMonth_le
      { day := c.day, month := c.month - 1, year := c.year, event := c.event }
    rw [wrapInt32_of_range _ (by omega) (by omega)]

theorem addLoop32_of_gt (c : Calendar) (h : c.day > c.daysInMonth) :
    Calendar.addLoop32 c = Calendar.addLoop32 c.addStep32 := by
  rw [Calendar.addLoop32, if_pos h]

theorem addLoop32_of_le (c : Calendar) (h : ¬ c.day > c.daysInMonth) :
    Calendar.addLoop32 c = c := by
  rw [Calendar.addLoop32, if_neg h]

theorem subLoop32_of_lt (c : Calendar) (h : c.day < 1) :
    Calendar.subLoop32 c = Calendar.subLoop32 c.subStep32 := by
  rw [Calendar.subLoop32, if_pos h]

theorem subLoop32_of_ge (c : Calendar) (h : ¬ c.day < 1) :
    Calendar.subLoop32 c = c := by
  rw [Calendar.subLoop32, if_neg h]

/-- The addition loop leaves the label alone. -/
theorem addLoop32_event (c : Calendar) : (Calendar.addLoop32 c).event = c.event := by
  induction c using Calendar.addLoop32.induct with
  | case1 c h ih => rw [addLoop32_of_gt c h, ih, addStep32_event]
  | case2 c h => rw [addLoop32_of_le c h]

/-- The subtraction loop leaves the label alone. -/
theorem subLoop32_event (c : Calendar) : (Calendar.subLoop32 c).event = c.event := by
  induction c using Calendar.subLoop32.induct with
  | case1 c h ih => rw [subLoop32_of_lt c h, ih, subStep32_event]
  | case2 c h => rw [subLoop32_of_ge c h]

/-- The addition loop with the arithmetic of `int` is the loop over the
integers when the day it starts from is an `int` and the year that the loop
over the integers ends in is an `int`: no pass overflows then. -/
theorem addLoop32_eq (c : Calendar) (h1 : 1 ≤ c.month) (h12 : c.month ≤ 12)
    (hd : c.day ≤ 2147483647) (hylo : -2147483648 ≤ c.year)
    (hyhi : (Calendar.addLoop c).year ≤ 2147483647) :
    Calendar.addLoop32 c = Calendar.addLoop c := by
  induction c using Calendar.addLoop.induct with
  | case1 c h ih =>
    have h28 := Calendar.daysInMonth_ge c
    have hm : 1 ≤ c.addStep.month ∧ c.addStep.month ≤ 12 := by
      rw [Calendar.addStep_month]; split_ifs <;> omega
    have hy1 : c.year ≤ c.addStep.year := by
      rw [Calendar.addStep_year]; split_ifs <;> omega
    rw [Calendar.addLoop_of_gt c h] at hyhi ⊢
    have hy2 := Calendar.addLoop_year c.addStep
    have hstep := addStep32_eq c h1 h12 h hd hylo (by omega)
    rw [addLoop32_of_gt c h, hstep]
    exact ih hm.1 hm.2 (by rw [Calendar.addStep_day]; omega) (by omega) hyhi
  | case2 c h => rw [Calendar.addLoop_of_le c h, addLoop32_of_le c h]

/-- The subtraction loop with the arithmetic of `int` is the loop over the
integers when the day it starts from is an `int` and the year that the loop
over the integers ends in is an `int`: no pass overflows then. -/
theorem subLoop32_eq (c : Calendar) (h1 : 1 ≤ c.month) (h12 : c.month ≤ 12)
    (hd : -2147483648 ≤ c.day) (hyhi : c.year ≤ 2147483647)
    (hylo : -2147483648 ≤ (Calendar.subLoop c).year) :
    Calendar.subLoop32 c = Calendar.subLoop c := by
  induction c using Calendar.subLoop.induct with
  | case1 c h ih =>
    have h28 := Calendar.daysInMonth_ge c.subStep
    have hm : 1 ≤ c.subStep.month ∧ c.subStep.month ≤ 12 := by
      rw [Calendar.subStep_month]; split_ifs <;> omega
    have hy1 : c.subStep.year ≤ c.year := by
      rw [Calendar.subStep_year]; split_ifs <;> omega
    rw [Calendar.subLoop_of_lt c h] at hylo ⊢
    have hy2 := subLoop_year_le c.subStep
    have hstep := subStep32_eq c h1 h12 h hd hyhi (by omega)
    rw [subLoop32_of_lt c h, hstep]
    exact ih hm.1 hm.2 (by rw [Calendar.subStep_day]; omega) (by omega) hylo
  | case2 c h => rw [Calendar.subLoop_of_ge c h, subLoop32_of_ge c h]

/-- `operator+=` with the arithmetic of `int` is the operator over the
integers when `day + n` is an `int` and the year that the operator over the
integers arrives in is an `int`. -/
theorem opAddAssign32_eq (c : Calendar) (n : Int) (h1 : 1 ≤ c.month) (h12 : c.month ≤ 12)
    (hlo : -2147483648 ≤ c.day + n) (hhi : c.day + n ≤ 2147483647)
    (hylo : -2147483648 ≤ c.year) (hyhi : (c.opAddAssign n).1.year ≤ 2147483647) :
    c.opAddAssign32 n = c.opAddAssign n := by
  unfold Calendar.opAddAssign at hyhi ⊢
  unfold Calendar.opAddAssign32
  dsimp only at hyhi ⊢
  rw [wrapInt32_of_range _ hlo hhi,
    addLoop32_eq { c with day := c.day + n } h1 h12 hhi hylo hyhi]

/-- `operator-=` with the arithmetic of `int` is the operator over the
integers when `day - n` is an `int` and the year that the operator over the
integers arrives in is an `int`. -/
theorem opSubAssign32_eq (c : Calendar) (n : Int) (h1 : 1 ≤ c.month) (h12 : c.month ≤ 12)
    (hlo : -2147483648 ≤ c.day - n) (hhi : c.day - n ≤ 2147483647)
    (hyhi : c.year ≤ 2147483647) (hylo : -2147483648 ≤ (c.opSubAssign n).1.year) :
    c.opSubAssign32 n = c.opSubAssign n := by
  unfold Calendar.opSubAssign at hylo ⊢
  unfold Calendar.opSubAssign32
  dsimp only at hylo ⊢
  rw [wrapInt32_of_range _ hlo hhi,
    subLoop32_eq { c with day := c.day - n } h1 h12 hlo hyhi hylo]

/-- Along the subtraction loop a pass takes 28 off `336 * year + 28 * month`
and puts at least 28 on the day. -/
theorem subLoop_potential (c : Calendar) (h1 : 1 ≤ c.month) (h12 : c.month ≤ 12) :
    336 * c.year + 28 * c.month + c.day ≤
      336 * (Calendar.subLoop c).year + 28 * (Calendar.subLoop c).month +
        (Calendar.subLoop c).day := by
  induction c using Calendar.subLoop.induct with
  | case1 c h ih =>
    have h28 := Calendar.daysInMonth_ge c.subStep
    have hm : 1 ≤ c.subStep.month ∧ c.subStep.month ≤ 12 := by
      rw [Calendar.subStep_month]; split_ifs <;> omega
    have hstep : 336 * c.year + 28 * c.month + c.day ≤
        336 * c.subStep.year + 28 * c.subStep.month + c.subStep.day := by
      rw [Calendar.subStep_day, Calendar.subStep_month, Calendar.subStep_year]
      split_ifs <;> omega
    rw [Calendar.subLoop_of_lt c h]
    have := ih hm.1 hm.2
    omega
  | case2 c h => rw [Calendar.subLoop_of_ge c h]

/-- Subtracting an `int` amount `n ≥ 0` from a valid event does not take the
year below the range of `int`. -/
theorem opSubAssign_year_ge (c : Calendar) (n : Int) (hv : c.Valid) (hn : 0 ≤ n)
    (hmax : n ≤ 2147483647) : -2147483648 ≤ (c.opSubAssign n).1.year := by
  obtain ⟨hm1, hm12, hd1, hdle, hy⟩ := hv
  have hdim : ({ c with day := c.day - n } : Calendar).daysInMonth = c.daysInMonth :=
    Calendar.daysInMonth_congr rfl rfl
  have hpot := subLoop_potential { c with day := c.day - n } hm1 hm12
  have hm := subLoop_month { c with day := c.day - n } hm1 hm12
  have hle := subLoop_day_le { c with day := c.day - n } (by rw [hdim]; dsimp only; omega)
  have h31 := Calendar.daysInMonth_le (Calendar.subLoop { c with day := c.day - n })
  unfold Calendar.opSubAssign
  dsimp only at hpot ⊢
  omega

/-- On a valid event whose year is an `int`, for an `int` amount `n ≥ 0`,
`operator-=` with the arithmetic of `int` is the operator over the integers:
no operation overflows. -/
theorem opSubAssign32_eq_of_nonneg (c : Calendar) (n : Int) (hv : c.Valid)
    (hc : c.year ≤ 2147483647) (hn : 0 ≤ n) (hmax : n ≤ 2147483647) :
    c.opSubAssign32 n = c.opSubAssign n := by
  have hd1 : 1 ≤ c.day := hv.2.2.1
  have hdle : c.day ≤ c.daysInMonth := hv.2.2.2.1
  have h31 := Calendar.daysInMonth_le c
  exact opSubAssign32_eq c n hv.1 hv.2.1 (by omega) (by omega) hc
    (opSubAssign_year_ge c n hv hn hmax)

/-- A year has at least 365 days. -/
theorem yearDays_ge (y : Int) : 365 ≤ yearDays y := by
  unfold yearDays
  simp only [List.range_succ, List.range_zero, List.nil_append, List.cons_append, List.map_cons,
    List.map_nil, List.sum_cons, List.sum_nil, monthDays, Calendar.daysInMonth]
  norm_num
  split_ifs <;> omega

theorem daysBeforeYear_ge (y : Int) (h0 : 0 ≤ y) : 365 * y ≤ daysBeforeYear y := by
  have key : ∀ k : Nat, 365 * (k : Int) ≤ daysBeforeYear k := by
    intro k
    induction k with
    | zero => simp [daysBeforeYear_zero]
    | succ k ih =>
      have hs := daysBeforeYear_succ (k : Int) (by omega)
      have hy := yearDays_ge (k : Int)
      push_cast
      rw [hs]
      omega
  have := key y.toNat
  have hc : ((y.toNat : Nat) : Int) = y := by omega
  rw [hc] at this
  exact this

/-- The day number of a valid date in a year from `y` on is at least the day
number of 1 January of year `y`. -/
theorem daysBeforeYear_le_dayNumber (c : Calendar) (y : Int) (hv : c.Valid) (h0 : 0 ≤ y)
    (hy : y ≤ c.year) : daysBeforeYear y ≤ c.dayNumber := by
  obtain ⟨hm1, hm12, hd1, hdle, hyear⟩ := hv
  have hbm := daysBeforeMonth_nonneg c.month c.year hm1
  unfold Calendar.dayNumber
  rcases lt_or_ge y c.year with h | h
  · have := daysBeforeYear_mono y c.year h0 h
    have hp := yearDays_pos y
    omega
  · have he : y = c.year := by omega
    rw [he]
    omega

/-- When the day number of the target lies before 1 January of year
2147483648, adding `n` days over the integers arrives in a year that is an
`int`. -/
theorem opAddAssign_year_le (c : Calendar) (n : Int) (hv : c.Valid) (h1 : 1 ≤ c.day + n)
    (hyear : c.dayNumber + n < daysBeforeYear 2147483648) :
    (c.opAddAssign n).1.year ≤ 2147483647 := by
  obtain ⟨hval, hnum, -⟩ := opAddAssign_dayNumber c n hv h1
  by_contra hnot
  have := daysBeforeYear_le_dayNumber (c.opAddAssign n).1 2147483648 hval (by omega) (by omega)
  omega

/-- On a valid event, `operator+=` with the arithmetic of `int` is the
operator over the integers when `day + n` is an `int` that is at least 1 and
the target lies before 1 January of year 2147483648. -/
theorem opAddAssign32_eq_of_target (c : Calendar) (n : Int) (hv : c.Valid)
    (h1 : 1 ≤ c.day + n) (hhi : c.day + n ≤ 2147483647)
    (hyear : c.dayNumber + n < daysBeforeYear 2147483648) :
    c.opAddAssign32 n = c.opAddAssign n :=
  opAddAssign32_eq c n hv.1 hv.2.1 (by omega) hhi (by have := hv.2.2.2.2; omega)
    (opAddAssign_year_le c n hv h1 hyear)

/-- A year has at most 366 days. -/
theorem yearDays_le (y : Int) : yearDays y ≤ 366 := by
  unfold yearDays
  simp only [List.range_succ, List.range_zero, List.nil_append, List.cons_append, List.map_cons,
    List.map_nil, List.sum_cons, List.sum_nil, monthDays, Calendar.daysInMonth]
  norm_num
  split_ifs <;> omega

theorem daysBeforeYear_le (y : Int) (h0 : 0 ≤ y) : daysBeforeYear y ≤ 366 * y := by
  have key : ∀ k : Nat, daysBeforeYear k ≤ 366 * (k : Int) := by
    intro k
    induction k with
    | zero => simp [daysBeforeYear_zero]
    | succ k ih =>
      have hs := daysBeforeYear_succ (k : Int) (by omega)
      have hy := yearDays_le (k : Int)
      push_cast
      rw [hs]
      omega
  have := key y.toNat
  have hc : ((y.toNat : Nat) : Int) = y := by omega
  rw [hc] at this
  exact this

/-- The day number of a valid date of year `y` is below `366 * (y + 1)`. -/
theorem dayNumber_lt (c : Calendar) (hv : c.Valid) : c.dayNumber < 366 * (c.year + 1) := by
  obtain ⟨hm1, hm12, hd1, hdle, hy⟩ := hv
  have h1 := daysBeforeYear_le c.year hy
  have h2 := daysBeforeMonth_le_yearDays c.month c.year hm1 hm12
  have h3 := yearDays_le c.year
  have h4 := monthDays_eq c
  unfold Calendar.dayNumber
  omega

/-- A target whose day number is below `365 * 2147483648` lies before
1 January of year 2147483648. -/
theorem target_before_year_limit (x : Int) (h : x < 783831531520) :
    x < daysBeforeYear 2147483648 := by
  have := daysBeforeYear_ge 2147483648 (by decide)
  omega

/-! ## Date arithmetic with the arithmetic of `int` -/

/-- C2, as stated, fails: 31/12/2147483647 is a valid event, and adding 1 day
to it throws "Invalid year.": the year overflows to -2147483648. -/
theorem add_then_subtract_overflow :
    Calendar.Valid ⟨31, 12, 2147483647, "Eve"⟩ ∧ (0 : Int) ≤ 1 ∧
    Calendar.opAddAssign32 ⟨31, 12, 2147483647, "Eve"⟩ 1 =
      (⟨1, 1, -2147483648, "Eve"⟩, .error (.invalid_argument "Invalid year.")) := by
  refine ⟨by decide, by decide, ?_⟩
  unfold Calendar.opAddAssign32
  dsimp only
  rw [addLoop32_of_gt _ (by decide), addLoop32_of_le _ (by decide)]
  decide

/-- C2, amended: for every valid event and every `n ≥ 0` such that `day + n`
does not exceed 2147483647 and the date `n` days later lies before 1 January
of year 2147483648, adding `n` days returns normally, and subtracting `n`
days from the result returns normally and gives back the event, with the same
day, month, year and label. -/
theorem add_then_subtract_inverse (c : Calendar) (n : Int) (hv : c.Valid) (hn : 0 ≤ n)
    (hday : c.day + n ≤ 2147483647)
    (hyear : c.dayNumber + n < daysBeforeYear 2147483648) :
    (c.opAddAssign32 n).2 = .ok () ∧
    (c.opAddAssign32 n).1.opSubAssign32 n = (c, .ok ()) ∧
    Calendar.opEq ((c.opAddAssign32 n).1.opSubAssign32 n).1 c = true := by
  have hd1 : 1 ≤ c.day := hv.2.2.1
  have hy0 : 0 ≤ c.year := hv.2.2.2.2
  have hadd := opAddAssign32_eq_of_target c n hv (by omega) hday hyear
  obtain ⟨hok, hback, heq⟩ := opAddAssign_opSubAssign c n hv hn
  obtain ⟨hval, -, -⟩ := opAddAssign_dayNumber c n hv (by omega)
  have hyr := opAddAssign_year_le c n hv (by omega) hyear
  have h31 := Calendar.daysInMonth_le (c.opAddAssign n).1
  have hsub : (c.opAddAssign n).1.opSubAssign32 n = (c.opAddAssign n).1.opSubAssign n :=
    opSubAssign32_eq _ n hval.1 hval.2.1 (by have := hval.2.2.1; omega)
      (by have := hval.2.2.2.1; omega) hyr (by rw [hback]; dsimp only; omega)
  rw [hadd, hsub]
  exact ⟨hok, hback, heq⟩

/-- The event 31/12/2023 and 60 days (C2). -/
theorem add_then_subtract_inverse_witness :
    Calendar.Valid ⟨31, 12, 2023, "Eve"⟩ ∧ (0 : Int) ≤ 60 ∧ (31 : Int) + 60 ≤ 2147483647 ∧
    Calendar.dayNumber ⟨31, 12, 2023, "Eve"⟩ + 60 < daysBeforeYear 2147483648 ∧
    ((Calendar.opAddAssign32 ⟨31, 12, 2023, "Eve"⟩ 60).2 = .ok () ∧
      (Calendar.opAddAssign32 ⟨31, 12, 2023, "Eve"⟩ 60).1.opSubAssign32 60 =
        (⟨31, 12, 2023, "Eve"⟩, .ok ()) ∧
      Calendar.opEq ((Calendar.opAddAssign32 ⟨31, 12, 2023, "Eve"⟩ 60).1.opSubAssign32 60).1
        ⟨31, 12, 2023, "Eve"⟩ = true) := by
  have hv : Calendar.Valid ⟨31, 12, 2023, "Eve"⟩ := by decide
  have hy : Calendar.dayNumber ⟨31, 12, 2023, "Eve"⟩ + 60 < daysBeforeYear 2147483648 :=
    target_before_year_limit _ (by have := dayNumber_lt _ hv; dsimp only at this; omega)
  exact ⟨hv, by decide, by decide, hy,
    add_then_subtract_inverse ⟨31, 12, 2023, "Eve"⟩ 60 hv (by decide) (by decide) hy⟩

/-- C5, as stated, fails: the event 1/1/2024 is valid, and adding `-1` days
to it throws "Invalid day.", leaving the day at 0. -/
theorem add_negative_days_throws :
    Calendar.Valid ⟨1, 1, 2024, "New Year"⟩ ∧
    Calendar.opAddAssign32 ⟨1, 1, 2024, "New Year"⟩ (-1) =
      (⟨0, 1, 2024, "New Year"⟩, .error (.invalid_argument "Invalid day.")) := by
  refine ⟨by decide, ?_⟩
  unfold Calendar.opAddAssign32
  dsimp only
  rw [addLoop32_of_le _ (by decide)]
  decide

/-- C5, amended: on a valid event, for an `int` amount `n` such that
`day + n` does not exceed 2147483647 and the target lies before 1 January of
year 2147483648, `operator+=(n)` returns without throwing exactly when
`day + n ≥ 1`, hence for every such `n ≥ 0`; when `day + n < 1` the loop does
not run and the final validation throws "Invalid day.". -/
theorem add_days_succeeds_iff (c : Calendar) (n : Int) (hv : c.Valid)
    (hlo : -2147483648 ≤ n) (hday : c.day + n ≤ 2147483647)
    (hyear : c.dayNumber + n < daysBeforeYear 2147483648) :
    ((c.opAddAssign32 n).2 = .ok () ↔ 1 ≤ c.day + n) ∧
    (0 ≤ n → (c.opAddAssign32 n).2 = .ok ()) ∧
    (c.day + n < 1 →
      (c.opAddAssign32 n).2 = .error (.invalid_argument "Invalid day.")) := by
  obtain ⟨hm1, hm12, hd1, hdle, hy⟩ := hv
  have hvalid : c.Valid := ⟨hm1, hm12, hd1, hdle, hy⟩
  have hok : 1 ≤ c.day + n → (c.opAddAssign32 n).2 = .ok () := by
    intro h
    rw [opAddAssign32_eq_of_target c n hvalid h hday hyear]
    exact opAddAssign_ok_of_ge c n hvalid h
  have hbad : c.day + n < 1 →
      (c.opAddAssign32 n).2 = .error (.invalid_argument "Invalid day.") := by
    intro h
    have h28 := Calendar.daysInMonth_ge { c with day := c.day + n }
    unfold Calendar.opAddAssign32
    dsimp only
    rw [wrapInt32_of_range (c.day + n) (by omega) (by omega)]
    rw [addLoop32_of_le _ (by dsimp only at h28 ⊢; omega)]
    unfold Calendar.validateDate
    dsimp only
    rw [if_neg (by omega), if_pos (Or.inl h)]
  refine ⟨⟨?_, hok⟩, fun h => hok (by omega), hbad⟩
  intro h
  by_contra hlt
  rw [hbad (by omega)] at h
  cases h

/-- The event 28/2/2023 with the amounts 1 and -28 (C5). -/
theorem add_days_succeeds_iff_witness :
    Calendar.Valid ⟨28, 2, 2023, "x"⟩ ∧
    (Calendar.opAddAssign32 ⟨28, 2, 2023, "x"⟩ 1).2 = .ok () ∧
    (Calendar.opAddAssign32 ⟨28, 2, 2023, "x"⟩ (-28)).2 =
      .error (.invalid_argument "Invalid day.") := by
  have hv : Calendar.Valid ⟨28, 2, 2023, "x"⟩ := by decide
  have hlt := dayNumber_lt _ hv
  dsimp only at hlt
  exact ⟨hv,
    (add_days_succeeds_iff ⟨28, 2, 2023, "x"⟩ 1 hv (by decide) (by decide)
      (target_before_year_limit _ (by omega))).2.1 (by decide),
    (add_days_succeeds_iff ⟨28, 2, 2023, "x"⟩ (-28) hv (by decide) (by decide)
      (target_before_year_limit _ (by omega))).2.2 (by decide)⟩

/-- Over the integers: one day added to 31/12/`y` gives 1/1/`y+1`, and one
day taken from 1/1/`y+1` gives 31/12/`y`, for every year `y ≥ 0`. -/
theorem opAddAssign_year_boundary (y : Int) (e : String) (hy : 0 ≤ y) :
    Calendar.opAddAssign ⟨31, 12, y, e⟩ 1 = (⟨1, 1, y + 1, e⟩, .ok ()) ∧
    Calendar.opSubAssign ⟨1, 1, y + 1, e⟩ 1 = (⟨31, 12, y, e⟩, .ok ()) := by
  constructor
  · unfold Calendar.opAddAssign
    dsimp only
    have h1 : Calendar.addLoop ⟨31 + 1, 12, y, e⟩ = ⟨1, 1, y + 1, e⟩ := by
      rw [Calendar.addLoop_of_gt _ (by simp [Calendar.daysInMonth])]
      rw [Calendar.addLoop_of_le _ (by simp [Calendar.addStep, Calendar.daysInMonth])]
      simp [Calendar.addStep, Calendar.daysInMonth]
    rw [h1, (Calendar.validateDate_ok_iff _).2]
    simp only [Calendar.Valid, Calendar.daysInMonth]
    norm_num
    omega
  · unfold Calendar.opSubAssign
    dsimp only
    have h1 : Calendar.subLoop ⟨1 - 1, 1, y + 1, e⟩ = ⟨31, 12, y, e⟩ := by
      rw [Calendar.subLoop_of_lt _ (by simp)]
      rw [Calendar.subLoop_of_ge _ (by simp [Calendar.subStep, Calendar.daysInMonth])]
      simp [Calendar.subStep, Calendar.daysInMonth]
    rw [h1, (Calendar.validateDate_ok_iff _).2]
    simp only [Calendar.Valid, Calendar.daysInMonth]
    norm_num
    omega

/-- C8, as stated, fails at the year 2147483647: one day added to
31/12/2147483647, a valid event, does not give 1/1/2147483648 but throws
"Invalid year." with the year -2147483648. -/
theorem year_boundary_overflow :
    (0 : Int) ≤ 2147483647 ∧
    Calendar.construct 31 12 2147483647 "No event" = .ok ⟨31, 12, 2147483647, "No event"⟩ ∧
    Calendar.opAddAssign32 ⟨31, 12, 2147483647, "No event"⟩ 1 =
      (⟨1, 1, -2147483648, "No event"⟩, .error (.invalid_argument "Invalid year.")) ∧
    Calendar.opAddAssign32 ⟨31, 12, 2147483647, "No event"⟩ 1 ≠
      (⟨1, 1, 2147483647 + 1, "No event"⟩, .ok ()) := by
  have h : Calendar.opAddAssign32 ⟨31, 12, 2147483647, "No event"⟩ 1 =
      (⟨1, 1, -2147483648, "No event"⟩, .error (.invalid_argument "Invalid year.")) := by
    unfold Calendar.opAddAssign32
    dsimp only
    rw [addLoop32_of_gt _ (by decide), addLoop32_of_le _ (by decide)]
    decide
  rw [h]
  decide

/-- C8, amended: for every year `y` with `0 ≤ y < 2147483647` and every
label, one day added to 31/12/`y` gives 1/1/`y+1`, and one day taken from
1/1/`y+1` gives 31/12/`y`; both calls return without throwing and keep the
label. -/
theorem year_boundary_carry (y : Int) (e : String) (hy : 0 ≤ y) (hmax : y < 2147483647) :
    Calendar.opAddAssign32 ⟨31, 12, y, e⟩ 1 = (⟨1, 1, y + 1, e⟩, .ok ()) ∧
    Calendar.opSubAssign32 ⟨1, 1, y + 1, e⟩ 1 = (⟨31, 12, y, e⟩, .ok ()) := by
  obtain ⟨hadd, hsub⟩ := opAddAssign_year_boundary y e hy
  constructor
  · rw [opAddAssign32_eq ⟨31, 12, y, e⟩ 1 (by dsimp only; omega) (by dsimp only; omega)
      (by dsimp only; omega) (by dsimp only; omega)
      (by dsimp only; omega) (by rw [hadd]; dsimp only; omega)]
    exact hadd
  · rw [opSubAssign32_eq ⟨1, 1, y + 1, e⟩ 1 (by dsimp only; omega) (by dsimp only; omega)
      (by dsimp only; omega) (by dsimp only; omega)
      (by dsimp only; omega) (by rw [hsub]; dsimp only; omega)]
    exact hsub

/-- The boundary of the years 2023 and 2024, on events with the default
label (C8). -/
theorem year_boundary_carry_witness :
    (0 : Int) ≤ 2023 ∧ (2023 : Int) < 2147483647 ∧
    Calendar.opAddAssign32 ⟨31, 12, 2023, "No event"⟩ 1 =
      (⟨1, 1, 2023 + 1, "No event"⟩, .ok ()) ∧
    Calendar.opSubAssign32 ⟨1, 1, 2023 + 1, "No event"⟩ 1 =
      (⟨31, 12, 2023, "No event"⟩, .ok ()) :=
  ⟨by decide, by decide, year_boundary_carry 2023 "No event" (by decide) (by decide)⟩

/-! ## The state after a throwing call -/

/-- C12, as stated, fails: the valid event 1/1/0 is left as 31 December of
the year -1 by the throwing call `-= 1`, and the valid event 1/1/2024 is left
with day 0 by the throwing call `+= -1`. -/
theorem throwing_call_leaves_changed_state :
    Calendar.Valid ⟨1, 1, 0, "Epoch"⟩ ∧
    Calendar.opSubAssign32 ⟨1, 1, 0, "Epoch"⟩ 1 =
      (⟨31, 12, -1, "Epoch"⟩, .error (.invalid_argument "Invalid year.")) ∧
    (Calendar.opSubAssign32 ⟨1, 1, 0, "Epoch"⟩ 1).1 ≠ ⟨1, 1, 0, "Epoch"⟩ ∧
    Calendar.Valid ⟨1, 1, 2024, "Epoch"⟩ ∧
    (Calendar.opAddAssign32 ⟨1, 1, 2024, "Epoch"⟩ (-1)).2 =
      .error (.invalid_argument "Invalid day.") ∧
    (Calendar.opAddAssign32 ⟨1, 1, 2024, "Epoch"⟩ (-1)).1 = ⟨0, 1, 2024, "Epoch"⟩ ∧
    (Calendar.opAddAssign32 ⟨1, 1, 2024, "Epoch"⟩ (-1)).1 ≠ ⟨1, 1, 2024, "Epoch"⟩ := by
  have hs : Calendar.opSubAssign32 ⟨1, 1, 0, "Epoch"⟩ 1 =
      (⟨31, 12, -1, "Epoch"⟩, .error (.invalid_argument "Invalid year.")) := by
    unfold Calendar.opSubAssign32
    dsimp only
    rw [subLoop32_of_lt _ (by decide), subLoop32_of_ge _ (by decide)]
    decide
  have ha : Calendar.opAddAssign32 ⟨1, 1, 2024, "Epoch"⟩ (-1) =
      (⟨0, 1, 2024, "Epoch"⟩, .error (.invalid_argument "Invalid day.")) := by
    unfold Calendar.opAddAssign32
    dsimp only
    rw [addLoop32_of_le _ (by decide)]
    decide
  rw [hs, ha]
  decide

/-- C12, amended: when `operator+=` or `operator-=` throws on a valid event,
the label is the one before the call, but the date members are not restored:
the object keeps the date that the validation has rejected, which is not the
date before the call. -/
theorem throwing_call_state (c : Calendar) (n : Int) (hv : c.Valid) :
    ((c.opAddAssign32 n).2 ≠ .ok () →
        (c.opAddAssign32 n).1.event = c.event ∧
        ¬ (c.opAddAssign32 n).1.Valid ∧ (c.opAddAssign32 n).1 ≠ c) ∧
    ((c.opSubAssign32 n).2 ≠ .ok () →
        (c.opSubAssign32 n).1.event = c.event ∧
        ¬ (c.opSubAssign32 n).1.Valid ∧ (c.opSubAssign32 n).1 ≠ c) := by
  constructor
  · intro hfail
    have hinv : ¬ (c.opAddAssign32 n).1.Valid := fun hval =>
      hfail ((Calendar.validateDate_ok_iff _).2 hval)
    refine ⟨?_, hinv, ?_⟩
    · unfold Calendar.opAddAssign32
      dsimp only
      rw [addLoop32_event]
    · intro heq
      rw [heq] at hinv
      exact hinv hv
  · intro hfail
    have hinv : ¬ (c.opSubAssign32 n).1.Valid := fun hval =>
      hfail ((Calendar.validateDate_ok_iff _).2 hval)
    refine ⟨?_, hinv, ?_⟩
    · unfold Calendar.opSubAssign32
      dsimp only
      rw [subLoop32_event]
    · intro heq
      rw [heq] at hinv
      exact hinv hv

/-- A valid event on which `+= 1` throws by the overflow of the year and
`-= -31` throws by the day (C12). -/
theorem throwing_call_state_witness :
    Calendar.Valid ⟨31, 12, 2147483647, "Epoch"⟩ ∧
    Calendar.opAddAssign32 ⟨31, 12, 2147483647, "Epoch"⟩ 1 =
      (⟨1, 1, -2147483648, "Epoch"⟩, .error (.invalid_argument "Invalid year.")) ∧
    Calendar.opSubAssign32 ⟨31, 12, 2147483647, "Epoch"⟩ (-31) =
      (⟨62, 12, 2147483647, "Epoch"⟩, .error (.invalid_argument "Invalid day.")) ∧
    ((Calendar.opAddAssign32 ⟨31, 12, 2147483647, "Epoch"⟩ 1).1.event = "Epoch" ∧
      ¬ (Calendar.opAddAssign32 ⟨31, 12, 2147483647, "Epoch"⟩ 1).1.Valid ∧
      (Calendar.opAddAssign32 ⟨31, 12, 2147483647, "Epoch"⟩ 1).1 ≠
        ⟨31, 12, 2147483647, "Epoch"⟩) ∧
    ((Calendar.opSubAssign32 ⟨31, 12, 2147483647, "Epoch"⟩ (-31)).1.event = "Epoch" ∧
      ¬ (Calendar.opSubAssign32 ⟨31, 12, 2147483647, "Epoch"⟩ (-31)).1.Valid ∧
      (Calendar.opSubAssign32 ⟨31, 12, 2147483647, "Epoch"⟩ (-31)).1 ≠
        ⟨31, 12, 2147483647, "Epoch"⟩) := by
  have ha : Calendar.opAddAssign32 ⟨31, 12, 2147483647, "Epoch"⟩ 1 =
      (⟨1, 1, -2147483648, "Epoch"⟩, .error (.invalid_argument "Invalid year.")) := by
    unfold Calendar.opAddAssign32
    dsimp only
    rw [addLoop32_of_gt _ (by decide), addLoop32_of_le _ (by decide)]
    decide
  have hs : Calendar.opSubAssign32 ⟨31, 12, 2147483647, "Epoch"⟩ (-31) =
      (⟨62, 12, 2147483647, "Epoch"⟩, .error (.invalid_argument "Invalid day.")) := by
    unfold Calendar.opSubAssign32
    dsimp only
    rw [subLoop32_of_ge _ (by decide)]
    decide
  exact ⟨by decide, ha, hs,
    (throwing_call_state ⟨31, 12, 2147483647, "Epoch"⟩ 1 (by decide)).1
      (by rw [ha]; decide),
    (throwing_call_state ⟨31, 12, 2147483647, "Epoch"⟩ (-31) (by decide)).2
      (by rw [hs]; decide)⟩

/-! ## The day count with the arithmetic of `int` -/

/-- C15, as stated, fails: on the valid event 31/12/2147483647 adding 1 day
throws "Invalid year.", and on the valid event 31/1/0 adding 2147483617 days
throws "Invalid day.", because `day + n` overflows. -/
theorem add_days_target_overflow :
    Calendar.Valid ⟨31, 12, 2147483647, "Last"⟩ ∧ (0 : Int) ≤ 1 ∧
    Calendar.opAddAssign32 ⟨31, 12, 2147483647, "Last"⟩ 1 =
      (⟨1, 1, -2147483648, "Last"⟩, .error (.invalid_argument "Invalid year.")) ∧
    Calendar.Valid ⟨31, 1, 0, "Last"⟩ ∧ (0 : Int) ≤ 2147483617 ∧
    Calendar.opAddAssign32 ⟨31, 1, 0, "Last"⟩ 2147483617 =
      (⟨-2147483648, 1, 0, "Last"⟩, .error (.invalid_argument "Invalid day.")) := by
  refine ⟨by decide, by decide, ?_, by decide, by decide, ?_⟩
  · unfold Calendar.opAddAssign32
    dsimp only
    rw [addLoop32_of_gt _ (by decide), addLoop32_of_le _ (by decide)]
    decide
  · unfold Calendar.opAddAssign32
    dsimp only
    rw [addLoop32_of_le _ (by decide)]
    decide

/-- C15, amended: for every valid event and every `n ≥ 0` such that `day + n`
does not exceed 2147483647 and the day number of the event plus `n` lies
before 1 January of year 2147483648, `operator+=` returns normally and leaves
the valid date whose day number, counted from 1 January of year 0 with the
month lengths of `daysInMonth`, is that of the event plus `n`; no other valid
date has this day number; the label is the one of before.  So 31/12/2023 plus
60 days is 29/2/2024 and 28/2/2023 plus 1 day is 1/3/2023. -/
theorem add_days_day_number (c : Calendar) (n : Int) (hv : c.Valid) (hn : 0 ≤ n)
    (hday : c.day + n ≤ 2147483647)
    (hyear : c.dayNumber + n < daysBeforeYear 2147483648) :
    (c.opAddAssign32 n).2 = .ok () ∧
    (c.opAddAssign32 n).1.Valid ∧
    (c.opAddAssign32 n).1.dayNumber = c.dayNumber + n ∧
    (c.opAddAssign32 n).1.event = c.event ∧
    (∀ d : Calendar, d.Valid → d.dayNumber = c.dayNumber + n →
        d.SameDate (c.opAddAssign32 n).1) ∧
    Calendar.opAddAssign32 ⟨31, 12, 2023, "No event"⟩ 60 =
      (⟨29, 2, 2024, "No event"⟩, .ok ()) ∧
    Calendar.opAddAssign32 ⟨28, 2, 2023, "No event"⟩ 1 =
      (⟨1, 3, 2023, "No event"⟩, .ok ()) := by
  have hd1 : 1 ≤ c.day := hv.2.2.1
  rw [opAddAssign32_eq_of_target c n hv (by omega) hday hyear]
  obtain ⟨hval, hnum, hev⟩ := opAddAssign_dayNumber c n hv (by omega)
  refine ⟨opAddAssign_ok_of_ge c n hv (by omega), hval, hnum, hev, ?_, ?_, ?_⟩
  · intro d hd hdn
    exact sameDate_of_dayNumber_eq d _ hd hval (by rw [hdn, hnum])
  · unfold Calendar.opAddAssign32
    dsimp only
    rw [addLoop32_of_gt _ (by decide), addLoop32_of_gt _ (by decide),
      addLoop32_of_le _ (by decide)]
    decide
  · unfold Calendar.opAddAssign32
    dsimp only
    rw [addLoop32_of_gt _ (by decide), addLoop32_of_le _ (by decide)]
    decide

/-- The event 31/12/2023 and 60 days (C15). -/
theorem add_days_day_number_witness :
    Calendar.Valid ⟨31, 12, 2023, "Eve"⟩ ∧ (0 : Int) ≤ 60 ∧ (31 : Int) + 60 ≤ 2147483647 ∧
    Calendar.dayNumber ⟨31, 12, 2023, "Eve"⟩ + 60 < daysBeforeYear 2147483648 ∧
    (Calendar.opAddAssign32 ⟨31, 12, 2023, "Eve"⟩ 60).2 = .ok () ∧
    (Calendar.opAddAssign32 ⟨31, 12, 2023, "Eve"⟩ 60).1.Valid ∧
    (Calendar.opAddAssign32 ⟨31, 12, 2023, "Eve"⟩ 60).1.dayNumber =
      Calendar.dayNumber ⟨31, 12, 2023, "Eve"⟩ + 60 ∧
    (Calendar.opAddAssign32 ⟨31, 12, 2023, "Eve"⟩ 60).1.event = "Eve" := by
  have hv : Calendar.Valid ⟨31, 12, 2023, "Eve"⟩ := by decide
  have hy : Calendar.dayNumber ⟨31, 12, 2023, "Eve"⟩ + 60 < daysBeforeYear 2147483648 :=
    target_before_year_limit _ (by have := dayNumber_lt _ hv; dsimp only at this; omega)
  have h := add_days_day_number ⟨31, 12, 2023, "Eve"⟩ 60 hv (by decide) (by decide) hy
  exact ⟨hv, by decide, by decide, hy, h.1, h.2.1, h.2.2.1, h.2.2.2.1⟩

/-! ## Additivity with the arithmetic of `int` -/

/-- A call that returns normally leaves a valid object. -/
theorem opSubAssign_valid_of_ok (c : Calendar) (n : Int) (h : (c.opSubAssign n).2 = .ok ()) :
    (c.opSubAssign n).1.Valid :=
  (Calendar.validateDate_ok_iff _).1 h

/-- On a valid event, an `int` amount `n` for which `day + n` exceeds
2147483647 makes `operator+=` throw "Invalid day.": the day overflows to a
negative value and the loop does not run. -/
theorem opAddAssign32_day_overflow (r : Calendar) (n : Int) (hv : r.Valid)
    (hmax : n ≤ 2147483647) (hover : 2147483647 < r.day + n) :
    (r.opAddAssign32 n).2 = .error (.invalid_argument "Invalid day.") := by
  obtain ⟨hm1, hm12, hd1, hdle, -⟩ := hv
  have h31 := Calendar.daysInMonth_le r
  have hw : Calendar.wrapInt32 (r.day + n) = r.day + n - 4294967296 := by
    unfold Calendar.wrapInt32
    omega
  have h28 := Calendar.daysInMonth_ge { r with day := r.day + n - 4294967296 }
  unfold Calendar.opAddAssign32
  dsimp only
  rw [hw, addLoop32_of_le _ (by dsimp only at h28 ⊢; omega)]
  unfold Calendar.validateDate
  dsimp only
  rw [if_neg (by omega), if_pos (Or.inl (by omega))]

/-- On a valid event of a year from 6000000 on, subtracting 2147483647 days
returns normally, and adding 2147483647 days to the result throws
"Invalid day.". -/
theorem opSubAssign32_then_overflow (c : Calendar) (hv : c.Valid) (hy : 6000000 ≤ c.year)
    (hc : c.year ≤ 2147483647) :
    (c.opSubAssign32 2147483647).2 = .ok () ∧
    ((c.opSubAssign32 2147483647).1.opAddAssign32 2147483647).2 =
      .error (.invalid_argument "Invalid day.") := by
  have hd1 : 1 ≤ c.day := hv.2.2.1
  have hdle : c.day ≤ c.daysInMonth := hv.2.2.2.1
  have h31 := Calendar.daysInMonth_le c
  have hle : (2147483647 : Int) ≤ c.dayNumber := by
    have h1 := daysBeforeYear_le_dayNumber c 6000000 hv (by decide) hy
    have h2 := daysBeforeYear_ge 6000000 (by decide)
    omega
  have hsub := opSubAssign32_eq c 2147483647 hv.1 hv.2.1 (by omega) (by omega) hc
    (opSubAssign_year_ge c 2147483647 hv (by decide) (by decide))
  have hok := opSubAssign_ok_of_le c 2147483647 hv (by decide) hle
  have hval := opSubAssign_valid_of_ok c 2147483647 hok
  rw [hsub]
  exact ⟨hok, opAddAssign32_day_overflow _ 2147483647 hval (by decide)
    (by have := hval.2.2.1; omega)⟩

/-- C19, as stated, fails: on the valid event 1/1/6000000 subtracting
2147483647 days returns normally, and adding 2147483647 days to the result
throws "Invalid day.", because `day + n` overflows. -/
theorem subtract_then_add_overflow :
    Calendar.Valid ⟨1, 1, 6000000, "Far"⟩ ∧ (0 : Int) ≤ 2147483647 ∧
    (Calendar.opSubAssign32 ⟨1, 1, 6000000, "Far"⟩ 2147483647).2 = .ok () ∧
    ((Calendar.opSubAssign32 ⟨1, 1, 6000000, "Far"⟩ 2147483647).1.opAddAssign32 2147483647).2 =
      .error (.invalid_argument "Invalid day.") :=
  ⟨by decide, by decide,
    opSubAssign32_then_overflow ⟨1, 1, 6000000, "Far"⟩ (by decide) (by decide) (by decide)⟩

/-- C19, amended: for every valid event and every `n ≥ 0` for which
subtracting `n` days returns normally and the day of the result plus `n` does
not exceed 2147483647, adding `n` days to the result returns normally and
gives back the event, with the same day, month, year and label. -/
theorem subtract_then_add_inverse (c : Calendar) (n : Int) (hv : c.Valid)
    (hc : c.year ≤ 2147483647) (hn : 0 ≤ n) (hok : (c.opSubAssign32 n).2 = .ok ())
    (hday : (c.opSubAssign32 n).1.day + n ≤ 2147483647) :
    (c.opSubAssign32 n).1.opAddAssign32 n = (c, .ok ()) ∧
    Calendar.opEq ((c.opSubAssign32 n).1.opAddAssign32 n).1 c = true := by
  have hval32 : (c.opSubAssign32 n).1.Valid := (Calendar.validateDate_ok_iff _).1 hok
  have hnmax : n ≤ 2147483647 := by
    have := hval32.2.2.1
    omega
  have hd1 : 1 ≤ c.day := hv.2.2.1
  have h31 := Calendar.daysInMonth_le c
  have hdle : c.day ≤ c.daysInMonth := hv.2.2.2.1
  have hsub := opSubAssign32_eq c n hv.1 hv.2.1 (by omega) (by omega) hc
    (opSubAssign_year_ge c n hv hn hnmax)
  rw [hsub] at hval32 hday ⊢
  obtain ⟨hback, heq⟩ := opSubAssign_opAddAssign c n hv
  have hadd : (c.opSubAssign n).1.opAddAssign32 n = (c.opSubAssign n).1.opAddAssign n :=
    opAddAssign32_eq _ n hval32.1 hval32.2.1 (by have := hval32.2.2.1; omega) hday
      (by have := hval32.2.2.2.2; omega) (by rw [hback]; exact hc)
  rw [hadd]
  exact ⟨hback, heq⟩

/-- The event 1/3/2024 and 61 days, for which the subtraction returns
normally with 31/12/2023 (C19). -/
theorem subtract_then_add_inverse_witness :
    Calendar.Valid ⟨1, 3, 2024, "Spring"⟩ ∧ (2024 : Int) ≤ 2147483647 ∧ (0 : Int) ≤ 61 ∧
    Calendar.opSubAssign32 ⟨1, 3, 2024, "Spring"⟩ 61 = (⟨31, 12, 2023, "Spring"⟩, .ok ()) ∧
    ((Calendar.opSubAssign32 ⟨1, 3, 2024, "Spring"⟩ 61).1.opAddAssign32 61 =
        (⟨1, 3, 2024, "Spring"⟩, .ok ()) ∧
      Calendar.opEq ((Calendar.opSubAssign32 ⟨1, 3, 2024, "Spring"⟩ 61).1.opAddAssign32 61).1
        ⟨1, 3, 2024, "Spring"⟩ = true) := by
  have hs : Calendar.opSubAssign32 ⟨1, 3, 2024, "Spring"⟩ 61 =
      (⟨31, 12, 2023, "Spring"⟩, .ok ()) := by
    unfold Calendar.opSubAssign32
    dsimp only
    repeat rw [subLoop32_of_lt _ (by decide)]
    rw [subLoop32_of_ge _ (by decide)]
    decide
  exact ⟨by decide, by decide, by decide, hs,
    subtract_then_add_inverse ⟨1, 3, 2024, "Spring"⟩ 61 (by decide) (by decide) (by decide)
      (by rw [hs]) (by rw [hs]; decide)⟩
